import Mathlib

/-!
Verification development for the SRS channel and noise estimator
(`srs_estimator_generic_impl.cpp`) of this repository.

The C++ code is shallowly embedded as follows.

* `float`/`double` arithmetic is idealized as real arithmetic (`ℝ`), complex
  samples (`cf_t`) as `ℂ`.  Divisions are Lean's total division.
* The external collaborators (sequence generator, resource-grid reader,
  time-alignment estimator, `get_srs_information`) are parameters (`Deps`,
  `Grid`): the estimator is proved for every collaborator behaviour.
* Machine-unsigned subtraction and multiplication in the noise normalization
  are modelled with an explicit `% 2^32`.
* The per-RNTI diagnostic collector block (`SRS_CSI_COLLECTION_MODE == 1`)
  performs file I/O which has no functional counterpart; what is embedded is
  its *control flow*: the `continue` statements that leave the per
  `(rx, tx)` loop iteration early when the request context is absent, when
  the formatted context has no parseable RNTI token, or when the parsed RNTI
  is zero.  The string parsing (`std::string::find`, `std::stoul` base 16,
  truncation to `uint16_t`) is embedded exactly over `List Char`.
-/

/-- Information derived for one SRS antenna port
(collaborator `get_srs_information`, declared in `srs_information.h`). -/
structure SrsInfo where
  sequence_length : ℕ
  sequence_group : ℕ
  sequence_number : ℕ
  n_cs : ℕ
  n_cs_max : ℕ
  mapping_initial_subcarrier : ℕ
  comb_size : ℕ

/-- The SRS resource configuration fields read by `estimate`. -/
structure SrsResource where
  nof_antenna_ports : ℕ
  nof_symbols : ℕ
  start_symbol : ℕ
  comb_size : ℕ

/-- The estimation request (`srs_estimator_configuration`).

Modelled from the spec: the context is an opaque value used only by the
diagnostic sink; the code reads it exclusively through
`fmt::format("{}", config.context.value())`, so it is embedded directly as
the formatted character string. `scs_khz` stands for
`scs_to_khz(to_subcarrier_spacing(config.slot.numerology()))`. -/
structure SrsCfg where
  resource : SrsResource
  ports : List ℕ
  context : Option (List Char)
  scs_khz : ℕ

/-- A time-alignment measurement (`time_alignment_measurement`). -/
structure TaMeas where
  time_alignment : ℝ
  resolution : ℝ
  min : ℝ
  max : ℝ

/-- External collaborators of the estimator:
`deps.sequence_generator`, `deps.ta_estimator` and `get_srs_information`.
`seqGen group number n_cs n_cs_max k` is the `k`-th sample written by
`sequence_generator::generate`. -/
structure Deps where
  seqGen : ℕ → ℕ → ℕ → ℕ → ℕ → ℂ
  taEst : List (List ℂ) → ℕ → ℕ → ℝ → TaMeas
  srsInfo : SrsResource → ℕ → SrsInfo

/-- The resource grid reader: `g rx_port symbol subcarrier` is the received
sample; `resource_grid_reader::get` comb-samples it. -/
def Grid : Type := ℕ → ℕ → ℕ → ℂ

/-- The estimation result (`srs_estimator_result`).  The channel matrix is a
list of rows, one row per requested receive port, one entry per transmit
antenna port. -/
structure SrsResult where
  channel_matrix : List (List ℂ)
  time_alignment : TaMeas
  noise_variance : ℝ
  epre_dB : ℝ
  rsrp_dB : ℝ

/-! ### RNTI extraction from the formatted context

Embedding of lines 372-397 of `srs_estimator_generic_impl.cpp`:
`std::string::find("rnti=0x")`, `std::string::substr`,
`std::stoul(hex, nullptr, 16)` with its `catch (...)` paths, and the
`static_cast<uint16_t>` truncation. -/

/-- Whether `p` is an initial segment of `s` (character-wise). -/
def listStartsWith : List Char → List Char → Bool
  | [], _ => true
  | _ :: _, [] => false
  | p :: ps, c :: cs => p = c && listStartsWith ps cs

/-- Index of the first occurrence of `pat` in `s`
(`std::string::find`, `none` for `npos`). -/
def findSub : List Char → List Char → Option ℕ
  | [], pat => if pat = [] then some 0 else none
  | c :: cs, pat =>
    if listStartsWith pat (c :: cs) then some 0
    else (findSub cs pat).map (fun i => i + 1)

/-- Value of a hexadecimal digit character, `none` if not a hex digit. -/
def hexDigitVal (c : Char) : Option ℕ :=
  if ('0' ≤ c ∧ c ≤ '9') then some (c.toNat - 48)
  else if ('a' ≤ c ∧ c ≤ 'f') then some (c.toNat - 87)
  else if ('A' ≤ c ∧ c ≤ 'F') then some (c.toNat - 70)
  else none

/-- The whitespace characters skipped by `std::stoul` (C locale `isspace`). -/
def isSpaceChar (c : Char) : Bool :=
  c = ' ' || c = '\t' || c = '\n' || c = '\x0d' || c = '\x0b' || c = '\x0c'

/-- Drops a leading `0x`/`0X` marker when it is followed by a hex digit,
as the base-16 `std::stoul` subject-sequence rule does. -/
def stripHexMark : List Char → List Char
  | '0' :: 'x' :: d :: rest =>
    if (hexDigitVal d).isSome then d :: rest else '0' :: 'x' :: d :: rest
  | '0' :: 'X' :: d :: rest =>
    if (hexDigitVal d).isSome then d :: rest else '0' :: 'X' :: d :: rest
  | cs => cs

/-- `std::stoul(s, nullptr, 16)` on a 64-bit platform: skip whitespace, an
optional sign, an optional `0x`, then greedily read hex digits; `none` models
the `std::invalid_argument` (no digit) and `std::out_of_range`
(above `ULONG_MAX`) exceptions caught by the collector block. -/
def stoulHex (s : List Char) : Option ℕ :=
  let s1 := s.dropWhile isSpaceChar
  let signed : Bool × List Char :=
    match s1 with
    | '-' :: rest => (true, rest)
    | '+' :: rest => (false, rest)
    | _ => (false, s1)
  let digits := (stripHexMark signed.2).takeWhile (fun c => (hexDigitVal c).isSome)
  if digits = [] then none
  else
    let m := digits.foldl (fun acc c => 16 * acc + (hexDigitVal c).getD 0) 0
    if 2 ^ 64 ≤ m then none
    else some (if signed.1 then (2 ^ 64 - m) % 2 ^ 64 else m)

/-- The characters of the search token `"rnti=0x"`. -/
def rntiToken : List Char := ['r', 'n', 't', 'i', '=', '0', 'x']

/-- The RNTI recovered by the collector block from the formatted context:
`none` when there is no context, no token, or `std::stoul` throws; otherwise
the parsed value truncated to `uint16_t`. -/
def extractRnti (ctx : Option (List Char)) : Option ℕ :=
  match ctx with
  | none => none
  | some s =>
    match findSub s rntiToken with
    | none => none
    | some i => (stoulHex (s.drop (i + 7))).map (fun v => v % 2 ^ 16)

/-- True exactly when the collector block leaves the `(rx, tx)` loop
iteration through one of its `continue` statements: no context, no
parseable `rnti=0x` token, or a parsed RNTI equal to zero. -/
def skipDiag (c : SrsCfg) : Bool :=
  match extractRnti c.context with
  | none => true
  | some v => v = 0

/-! ### Arithmetic helpers (machine arithmetic and srsvec kernels) -/

/-- 32-bit unsigned subtraction `a - b` (wraps modulo `2^32`). -/
def usub32 (a b : ℕ) : ℕ := (a + (2 ^ 32 - b % 2 ^ 32)) % 2 ^ 32

/-- Elementwise sum of two complex buffers (`srsvec::add`). -/
def addList (a b : List ℂ) : List ℂ := List.zipWith (· + ·) a b

/-- `srsvec::mean`: arithmetic mean of a complex buffer. -/
noncomputable def meanC (l : List ℂ) : ℂ := l.sum / (l.length : ℂ)

/-- `srsvec::average_power`: mean squared magnitude of a buffer. -/
noncomputable def avgPower (l : List ℂ) : ℝ :=
  ((l.map Complex.normSq).sum) / (l.length : ℝ)

/-- `convert_power_to_dB`. -/
noncomputable def toDb (x : ℝ) : ℝ := 10 * Real.logb 10 x

/-- `std::round` (half away from zero) followed by `static_cast<int>`
applied to an exactly-rounded value. -/
noncomputable def roundAway (x : ℝ) : ℤ :=
  if 0 ≤ x then ⌊x + 1 / 2⌋ else -⌊-x + 1 / 2⌋

/-- `std::numeric_limits<double>::min()`: the smallest positive normalized
double, `2 ^ (-1022)`. -/
noncomputable def dblMin : ℝ := 2 ^ (-1022 : ℤ)

/-- `std::numeric_limits<double>::max()`: the largest finite double. -/
noncomputable def dblMax : ℝ := (2 ^ 53 - 1) * 2 ^ (971 : ℕ)

/-! ### Phase-shift compensation (`compensate_phase_shift`, lines 192-213) -/

/-- The quantized phase index written into `temp_phase` for element `n`:
`round(table_size * (n * phase_shift_subcarrier + phase_shift_offset) / 2π)`. -/
noncomputable def phaseIdx (ts : ℕ) (psc off : ℝ) (n : ℕ) : ℤ :=
  roundAway ((ts : ℝ) * ((n : ℝ) * psc + off) / (2 * Real.pi))

/-- Modelled from the spec: the complex-exponential table lookup
(`complex_exponential_table::generate`, whose implementation is not part of
this excerpt) maps index `k` to `exp(2πi·(k mod table_size)/table_size)`. -/
noncomputable def cexpTable (ts : ℕ) (k : ℤ) : ℂ :=
  Complex.exp (2 * Real.pi * Complex.I * (((k % (ts : ℤ) : ℤ) : ℂ) / (ts : ℂ)))

/-- `srs_estimator_generic_impl::compensate_phase_shift`: multiply element
`n` of the buffer by the table-quantized complex exponential of phase
`n * psc + off`. -/
noncomputable def compensatePhaseShift (ts : ℕ) (x : List ℂ) (psc off : ℝ) :
    List ℂ :=
  (List.range x.length).map fun n => x.getD n 0 * cexpTable ts (phaseIdx ts psc off n)

/-! ### The estimation pipeline (`estimate`, lines 215-524) -/

/-- `get_srs_information(config.resource, p)`. -/
def infoAt (d : Deps) (c : SrsCfg) (p : ℕ) : SrsInfo := d.srsInfo c.resource p

/-- The common sequence length, taken from antenna port 0 (line 242). -/
def seqLen (d : Deps) (c : SrsCfg) : ℕ := (infoAt d c 0).sequence_length

/-- The interleaved-pilot condition (line 269):
four antenna ports and `n_cs ≥ n_cs_max / 2` for port 0
(unsigned integer division). -/
def interleavedPilots (d : Deps) (c : SrsCfg) : Bool :=
  (c.resource.nof_antenna_ports == 4) &&
    ((infoAt d c 0).n_cs_max / 2 ≤ (infoAt d c 0).n_cs)

/-- The receive-port identifier processed at index `r` (`config.ports[r]`). -/
def rxPortAt (c : SrsCfg) (r : ℕ) : ℕ := c.ports.getD r 0

/-- Comb-sampled received samples of one OFDM symbol
(`resource_grid_reader::get` filling `rx_sequence`, line 301). -/
def rxSeq (g : Grid) (info : SrsInfo) (rx sym : ℕ) : List ℂ :=
  (List.range info.sequence_length).map fun i =>
    g rx sym (info.mapping_initial_subcarrier + i * info.comb_size)

/-- The OFDM symbols carrying the SRS resource, in processing order. -/
def symList (res : SrsResource) : List ℕ :=
  (List.range res.nof_symbols).map fun s => res.start_symbol + s

/-- The raw per-subcarrier accumulation of `mean_lse` over the configured
symbols (lines 295-316): a direct copy for the first symbol
(`i_symbol == start_symbol`), an elementwise add for the others. -/
def rawAccum (g : Grid) (info : SrsInfo) (res : SrsResource) (rx : ℕ) :
    List ℂ :=
  (symList res).foldl
    (fun acc s =>
      if s = res.start_symbol then rxSeq g info rx s
      else addList acc (rxSeq g info rx s))
    (List.replicate info.sequence_length 0)

/-- The reference pilot sequence of antenna port `p`
(`sequence_generator::generate` into `all_sequences`, lines 278-279;
the buffer length is the common sequence length). -/
def pilotSeq (d : Deps) (c : SrsCfg) (p : ℕ) : List ℂ :=
  (List.range (seqLen d c)).map
    (d.seqGen (infoAt d c p).sequence_group (infoAt d c p).sequence_number
      (infoAt d c p).n_cs (infoAt d c p).n_cs_max)

/-- The least-squares buffer for receive index `r` and antenna port `p`
before phase compensation (lines 295-324): symbol accumulation, elementwise
multiplication by the conjugate of the pilot (`srsvec::prod_conj`), and a
`1 / nof_symbols` scaling applied only when `nof_symbols > 1`. -/
noncomputable def lseRaw (d : Deps) (g : Grid) (c : SrsCfg) (r p : ℕ) : List ℂ :=
  let raw := rawAccum g (infoAt d c p) c.resource (rxPortAt c r)
  let lse := List.zipWith (fun a b => a * (starRingEnd ℂ) b) raw (pilotSeq d c p)
  if 1 < c.resource.nof_symbols then
    lse.map (fun z => ((c.resource.nof_symbols : ℂ))⁻¹ * z)
  else lse

/-- The maximum measurable delay `max_ta` (line 245). -/
noncomputable def maxTaVal (d : Deps) (c : SrsCfg) : ℝ :=
  1 / (((infoAt d c 0).n_cs_max * c.scs_khz * 1000 * c.resource.comb_size : ℕ) : ℝ)

/-- `port_lse`: the per-receive-port least-squares buffers handed to the
time-alignment estimator for antenna port `p` (line 333). -/
noncomputable def portLse (d : Deps) (g : Grid) (c : SrsCfg) (p : ℕ) : List (List ℂ) :=
  (List.range c.ports.length).map fun r => lseRaw d g c r p

/-- The time-alignment measurement obtained for antenna port `p`. -/
noncomputable def taMeasAt (d : Deps) (g : Grid) (c : SrsCfg) (p : ℕ) :
    TaMeas :=
  d.taEst (portLse d g c p) (infoAt d c p).comb_size c.scs_khz (maxTaVal d c)

/-- The per-port measurements in antenna-port order. -/
noncomputable def taMeasList (d : Deps) (g : Grid) (c : SrsCfg) : List TaMeas :=
  (List.range c.resource.nof_antenna_ports).map (taMeasAt d g c)

/-- The running combination of time-alignment measurements (lines 249-252
and 335-339): sum of estimates, running `max` of the `min` fields starting
from `std::numeric_limits<double>::min()`, running `min` of the `max` fields
starting from `std::numeric_limits<double>::max()`, running `max` of the
resolutions starting from `0`. -/
noncomputable def taCombine (ms : List TaMeas) : TaMeas :=
  ms.foldl
    (fun acc m =>
      { time_alignment := acc.time_alignment + m.time_alignment
        resolution := max acc.resolution m.resolution
        min := max acc.min m.min
        max := min acc.max m.max })
    { time_alignment := 0, resolution := 0, min := dblMin, max := dblMax }

/-- The final slot-level time alignment (line 343): accumulated estimate
divided by the number of antenna ports. -/
noncomputable def taFinalVal (d : Deps) (g : Grid) (c : SrsCfg) : ℝ :=
  (taCombine (taMeasList d g c)).time_alignment /
    (c.resource.nof_antenna_ports : ℝ)

/-- The aggregated time-alignment measurement placed in the result. -/
noncomputable def taResultVal (d : Deps) (g : Grid) (c : SrsCfg) : TaMeas :=
  { taCombine (taMeasList d g c) with time_alignment := taFinalVal d g c }

/-- `phase_shift_subcarrier` (line 357): `2π · ta · scs_khz · 1000 · comb`. -/
noncomputable def pscVal (d : Deps) (g : Grid) (c : SrsCfg) : ℝ :=
  2 * Real.pi * taFinalVal d g c *
    ((c.scs_khz * 1000 * c.resource.comb_size : ℕ) : ℝ)

/-- `phase_shift_offset` for antenna port `p` (line 361). -/
noncomputable def offVal (d : Deps) (g : Grid) (c : SrsCfg) (p : ℕ) : ℝ :=
  pscVal d g c * ((infoAt d c p).mapping_initial_subcarrier : ℝ) /
    (c.resource.comb_size : ℝ)

/-- The compensated least-squares buffer for `(r, p)` (line 365). -/
noncomputable def lseComp (ts : ℕ) (d : Deps) (g : Grid) (c : SrsCfg)
    (r p : ℕ) : List ℂ :=
  compensatePhaseShift ts (lseRaw d g c r p) (pscVal d g c) (offVal d g c p)

/-- The wideband channel coefficient for `(r, p)` (line 473). -/
noncomputable def coefficientAt (ts : ℕ) (d : Deps) (g : Grid) (c : SrsCfg)
    (r p : ℕ) : ℂ :=
  meanC (lseComp ts d g c r p)

/-- The RSRP accumulator at line 512: the sum of squared coefficient
magnitudes, which is accumulated only when the collector block does not
leave the loop iteration early. -/
noncomputable def rsrpAccVal (ts : ℕ) (d : Deps) (g : Grid) (c : SrsCfg) : ℝ :=
  if skipDiag c then 0
  else
    ((List.range c.ports.length).map fun r =>
      ((List.range c.resource.nof_antenna_ports).map fun p =>
        Complex.normSq (coefficientAt ts d g c r p)).sum).sum

/-- The noise-helper buffer of parity `par` for receive index `r` after the
first pass (lines 264-308): starting from zeros, the raw received samples of
antenna port `par` (port 0, or port 1 under interleaving) are added for
every configured symbol. -/
def noiseAcc (d : Deps) (g : Grid) (c : SrsCfg) (par r : ℕ) : List ℂ :=
  if par = 0 ∨ (interleavedPilots d c = true ∧ par = 1) then
    (symList c.resource).foldl
      (fun acc s => addList acc (rxSeq g (infoAt d c par) (rxPortAt c r) s))
      (List.replicate (seqLen d c) 0)
  else List.replicate (seqLen d c) 0

/-- One iteration of the second pass on the pair of noise-helper buffers for
a fixed receive index (lines 477-491): phase-compensate the buffer of the
matching parity when `p = 0` (or `p = 1` under interleaving), then subtract
the reconstructed signal `pilot · (nof_symbols · coefficient)`. -/
noncomputable def noiseStep (ts : ℕ) (d : Deps) (g : Grid) (c : SrsCfg)
    (r : ℕ) (st : List ℂ × List ℂ) (p : ℕ) : List ℂ × List ℂ :=
  let par : ℕ := if interleavedPilots d c then p % 2 else 0
  let nb0 : List ℂ := if par = 0 then st.1 else st.2
  let nb1 : List ℂ :=
    if p = 0 ∨ (interleavedPilots d c = true ∧ p = 1) then
      compensatePhaseShift ts nb0 (pscVal d g c) (offVal d g c p)
    else nb0
  let nb2 : List ℂ :=
    List.zipWith (fun a b => a - b) nb1
      ((pilotSeq d c p).map fun z =>
        ((c.resource.nof_symbols : ℂ) * coefficientAt ts d g c r p) * z)
  if par = 0 then (nb2, st.2) else (st.1, nb2)

/-- The pair of noise-helper buffers for receive index `r` after the second
pass.  When the collector block leaves every iteration early, neither the
compensation nor the subtraction happens and the buffers keep their
first-pass contents. -/
noncomputable def residualPair (ts : ℕ) (d : Deps) (g : Grid) (c : SrsCfg)
    (r : ℕ) : List ℂ × List ℂ :=
  if skipDiag c then (noiseAcc d g c 0 r, noiseAcc d g c 1 r)
  else
    (List.range c.resource.nof_antenna_ports).foldl (noiseStep ts d g c r)
      (noiseAcc d g c 0 r, noiseAcc d g c 1 r)

/-- The accumulated squared residual (lines 493-499): for each receive
index, the average power of the parity-0 residual times its length, plus the
same for parity 1 when pilots are interleaved. -/
noncomputable def noiseAccumTotal (ts : ℕ) (d : Deps) (g : Grid)
    (c : SrsCfg) : ℝ :=
  ((List.range c.ports.length).map fun r =>
    avgPower (residualPair ts d g c r).1 * ((residualPair ts d g c r).1.length : ℝ) +
      (if interleavedPilots d c then
        avgPower (residualPair ts d g c r).2 * ((residualPair ts d g c r).2.length : ℝ)
      else 0)).sum

/-- `nof_estimates` (line 505). -/
def nofEstimates (d : Deps) (c : SrsCfg) : ℕ :=
  if interleavedPilots d c then 2 else c.resource.nof_antenna_ports

/-- `correction_factor` (line 506). -/
def correctionFactor (d : Deps) (c : SrsCfg) : ℕ :=
  if interleavedPilots d c then 2 else 1

/-- The unsigned divisor of line 507,
`(nof_symbols * sequence_length - nof_estimates) * correction_factor *
nof_rx_ports`, with 32-bit unsigned wrap-around made explicit. -/
def noiseDivisor (d : Deps) (c : SrsCfg) : ℕ :=
  (usub32 (c.resource.nof_symbols * seqLen d c) (nofEstimates d c) *
      correctionFactor d c * c.ports.length) % 2 ^ 32

/-- The returned noise variance (line 507). -/
noncomputable def noiseVarFinal (ts : ℕ) (d : Deps) (g : Grid) (c : SrsCfg) :
    ℝ :=
  noiseAccumTotal ts d g c / ((noiseDivisor d c : ℕ) : ℝ)

/-- The clamped noise standard deviation (line 512).  Note that the second
operand uses the *raw* RSRP accumulator: the division of `rsrp` by
`nof_antenna_ports * nof_rx_ports` only happens at line 516, after this
value is computed. -/
noncomputable def noiseStdVal (ts : ℕ) (d : Deps) (g : Grid) (c : SrsCfg) :
    ℝ :=
  max (Real.sqrt (noiseVarFinal ts d g c))
    (Real.sqrt (rsrpAccVal ts d g c) * (1 / 100))

/-- The EPRE accumulator (lines 271, 305-308): for antenna port 0 (and
port 1 under interleaving), the average power of every received symbol at
every receive index. -/
noncomputable def epreAccVal (d : Deps) (g : Grid) (c : SrsCfg) : ℝ :=
  ((List.range c.resource.nof_antenna_ports).map fun p =>
    if p = 0 ∨ (interleavedPilots d c = true ∧ p = 1) then
      ((List.range c.ports.length).map fun r =>
        ((symList c.resource).map fun s =>
          avgPower (rxSeq g (infoAt d c p) (rxPortAt c r) s)).sum).sum
    else 0).sum

/-- The normalized EPRE (line 515). -/
noncomputable def epreFinal (d : Deps) (g : Grid) (c : SrsCfg) : ℝ :=
  epreAccVal d g c /
    ((c.resource.nof_symbols * correctionFactor d c * c.ports.length : ℕ) : ℝ)

/-- The normalized RSRP (line 516). -/
noncomputable def rsrpFinal (ts : ℕ) (d : Deps) (g : Grid) (c : SrsCfg) : ℝ :=
  rsrpAccVal ts d g c /
    ((c.resource.nof_antenna_ports * c.ports.length : ℕ) : ℝ)

/-- One entry of the returned channel matrix: zero (the freshly created
matrix is never written) when the collector block leaves the loop iteration
early, the wideband coefficient otherwise; in both cases scaled by
`1 / noise_std` (line 513).  This value uses the idealized total real
division (`1 / 0 = 0`); the IEEE-754 behaviour of the scaling at
`noise_std = 0`, where the program instead produces non-finite components,
is modelled by `entryRe` and `entryIm` below. -/
noncomputable def matrixEntry (ts : ℕ) (d : Deps) (g : Grid) (c : SrsCfg)
    (r p : ℕ) : ℂ :=
  (if skipDiag c then 0 else coefficientAt ts d g c r p) *
    (((1 : ℝ) / noiseStdVal ts d g c : ℝ) : ℂ)

/-- Classification of one single-precision component of a channel-matrix
entry after the final scaling: a finite value, a signed infinity, or NaN. -/
inductive FComp where
  | fin (x : ℝ)
  | posInf
  | negInf
  | nan

/-- Whether a component classifies as a finite value. -/
def FComp.isFinite : FComp → Prop
  | FComp.fin _ => True
  | FComp.posInf => False
  | FComp.negInf => False
  | FComp.nan => False

/-- IEEE-754 result of scaling a finite component `x` by `1 / ns` as line
513 does in single precision: when `ns = 0` the scale is `1/0.0f = +inf`
and the product is NaN for `x = 0` and a signed infinity otherwise; when
`ns ≠ 0` the product is the finite value `x * (1 / ns)` (finite-range
overflow of in-range values stays idealized, as everywhere else in this
embedding). -/
noncomputable def scaleComp (ns x : ℝ) : FComp :=
  if ns = 0 then
    if x = 0 then FComp.nan
    else if 0 < x then FComp.posInf
    else FComp.negInf
  else FComp.fin (x * (1 / ns))

/-- The unscaled value of entry `(r, p)`: zero when the collector block
skipped the iteration (the fresh matrix is never written), the wideband
coefficient otherwise. -/
noncomputable def entryUnscaled (ts : ℕ) (d : Deps) (g : Grid) (c : SrsCfg)
    (r p : ℕ) : ℂ :=
  if skipDiag c then 0 else coefficientAt ts d g c r p

/-- The real component of channel-matrix entry `(r, p)` after the
`result.channel_matrix *= 1 / noise_std` scaling, with IEEE special
values. -/
noncomputable def entryRe (ts : ℕ) (d : Deps) (g : Grid) (c : SrsCfg)
    (r p : ℕ) : FComp :=
  scaleComp (noiseStdVal ts d g c) (entryUnscaled ts d g c r p).re

/-- The imaginary component of channel-matrix entry `(r, p)` after the
scaling, with IEEE special values. -/
noncomputable def entryIm (ts : ℕ) (d : Deps) (g : Grid) (c : SrsCfg)
    (r p : ℕ) : FComp :=
  scaleComp (noiseStdVal ts d g c) (entryUnscaled ts d g c r p).im

/-- `srs_estimator_generic_impl::estimate`: the full result.  `ts` is the
size of the complex-exponential table owned by the estimator instance. -/
noncomputable def estimate (ts : ℕ) (d : Deps) (g : Grid) (c : SrsCfg) :
    SrsResult :=
  { channel_matrix :=
      (List.range c.ports.length).map fun r =>
        (List.range c.resource.nof_antenna_ports).map fun p =>
          matrixEntry ts d g c r p
    time_alignment := taResultVal d g c
    noise_variance := noiseVarFinal ts d g c
    epre_dB := toDb (epreFinal d g c)
    rsrp_dB := toDb (rsrpFinal ts d g c) }

/-! ### Structural validity

Modelled from the spec: the configuration validator
(`srs_validator_generic_impl`) is an external collaborator whose code is not
part of this excerpt.  The predicate below collects the structural
constraints the spec names (symbol range inside the slot, supported
antenna-port/comb/symbol counts, unique bounded receive ports) together with
the 3GPP-derived bounds on the common sequence length (at least 4 PRBs at
comb 4, at most 272 PRBs at comb 2) and the consistency of the per-port
information with port 0. -/
structure Valid (d : Deps) (c : SrsCfg) : Prop where
  ports_nonempty : c.ports ≠ []
  ports_nodup : c.ports.Nodup
  ports_bound : c.ports.length ≤ 4
  ntx_mem : c.resource.nof_antenna_ports ∈ [1, 2, 4]
  nsym_mem : c.resource.nof_symbols ∈ [1, 2, 4]
  start_bound : c.resource.start_symbol + c.resource.nof_symbols ≤ 14
  comb_mem : c.resource.comb_size ∈ [2, 4]
  scs_pos : 0 < c.scs_khz
  seq_min : 12 ≤ seqLen d c
  seq_max : seqLen d c ≤ 1632
  seq_common : ∀ p < c.resource.nof_antenna_ports,
    (infoAt d c p).sequence_length = seqLen d c

/-! ### A concrete family of requests used for witnesses and counterexamples

One transmit antenna port, one OFDM symbol starting at symbol 0, comb 4,
sequence length 12, unit pilot sequence, a received grid that is constant
per receive port, and a time-alignment collaborator returning a fixed
measurement. -/

def demoInfo : SrsInfo :=
  { sequence_length := 12, sequence_group := 0, sequence_number := 0,
    n_cs := 0, n_cs_max := 8, mapping_initial_subcarrier := 0, comb_size := 4 }

def demoRes : SrsResource :=
  { nof_antenna_ports := 1, nof_symbols := 1, start_symbol := 0, comb_size := 4 }

def demoDeps (t : TaMeas) : Deps :=
  { seqGen := fun _ _ _ _ _ => 1
    taEst := fun _ _ _ _ => t
    srsInfo := fun _ _ => demoInfo }

def demoGrid (v : ℕ → ℂ) : Grid := fun port _ _ => v port

def demoCfg (ctx : Option (List Char)) (P : List ℕ) : SrsCfg :=
  { resource := demoRes, ports := P, context := ctx, scs_khz := 15 }

noncomputable def taZero : TaMeas :=
  { time_alignment := 0, resolution := 0, min := 0, max := 0 }

noncomputable def taNeg : TaMeas :=
  { time_alignment := 0, resolution := 0, min := -1, max := 1 }

noncomputable def taPos : TaMeas :=
  { time_alignment := 1, resolution := 0, min := 0, max := 2 }

/-- A context string formatted as `"rnti=0x4601"`. -/
def ctxGood : List Char := ['r', 'n', 't', 'i', '=', '0', 'x', '4', '6', '0', '1']

/-- A context string formatted as `"rnti=0x0"`: the token parses but the
RNTI value is zero. -/
def ctxZero : List Char := ['r', 'n', 't', 'i', '=', '0', 'x', '0']


/-! ### Definitions taken from the specification text (for refinement claims)

These two definitions follow the wording of the specification, to be
compared against the embedding of the code above. -/

/-- The time-alignment combination as the specification words it: the same
running combination, but with starting bounds covering the widest
representable double range (`min` starts at the lowest finite double). -/
noncomputable def specTaCombine (ms : List TaMeas) : TaMeas :=
  ms.foldl
    (fun acc m =>
      { time_alignment := acc.time_alignment + m.time_alignment
        resolution := max acc.resolution m.resolution
        min := max acc.min m.min
        max := min acc.max m.max })
    { time_alignment := 0, resolution := 0, min := -dblMax, max := dblMax }

/-- The aggregated measurement the specification describes: the combination
above with the estimate averaged over the transmit antenna ports. -/
noncomputable def specTaResult (d : Deps) (g : Grid) (c : SrsCfg) : TaMeas :=
  { specTaCombine (taMeasList d g c) with
    time_alignment :=
      (specTaCombine (taMeasList d g c)).time_alignment /
        (c.resource.nof_antenna_ports : ℝ) }

/-- A per-receive-port constant grid profile: port 0 receives 3, every
other port receives 4. -/
def v34 : ℕ → ℂ := fun port => if port = 0 then 3 else 4

/-! ### Helper lemmas on lists and buffers -/

lemma sumList_range (n : ℕ) (f : ℕ → ℂ) :
    ((List.range n).map f).sum = ∑ i ∈ Finset.range n, f i := by
  induction n with
  | zero => simp
  | succ m ih =>
    rw [List.range_succ, List.map_append, List.sum_append, Finset.sum_range_succ, ih]
    simp

lemma sumList_range_real (n : ℕ) (f : ℕ → ℝ) :
    ((List.range n).map f).sum = ∑ i ∈ Finset.range n, f i := by
  induction n with
  | zero => simp
  | succ m ih =>
    rw [List.range_succ, List.map_append, List.sum_append, Finset.sum_range_succ, ih]
    simp

lemma replicate_getD (n i : ℕ) (a : ℂ) :
    (List.replicate n a).getD i 0 = if i < n then a else 0 := by
  by_cases h : i < n
  · rw [List.getD_eq_getElem _ _ (by simpa using h)]
    simp [h]
  · rw [List.getD_eq_default]
    · simp [h]
    · simpa using Nat.le_of_not_lt h

lemma zipWith_replicate_eq (f : ℂ → ℂ → ℂ) (n : ℕ) (a b : ℂ) :
    List.zipWith f (List.replicate n a) (List.replicate n b) =
      List.replicate n (f a b) := by
  induction n with
  | zero => simp
  | succ m ih => simp [List.replicate_succ, ih]

lemma map_getD_range (l : List ℂ) :
    (List.range l.length).map (fun n => l.getD n 0) = l := by
  apply List.ext_getElem
  · simp
  · intro i h1 h2
    simp only [List.getElem_map]
    rw [List.getD_eq_getElem l 0 (by simpa using h2)]
    congr 1
    simp

lemma addList_length (a b : List ℂ) :
    (addList a b).length = min a.length b.length := by
  simp [addList]

lemma addList_getD (a b : List ℂ) (k : ℕ) (ha : k < a.length)
    (hb : k < b.length) :
    (addList a b).getD k 0 = a.getD k 0 + b.getD k 0 := by
  have hk : k < (addList a b).length := by
    rw [addList_length]; exact lt_min ha hb
  rw [List.getD_eq_getElem _ _ hk, List.getD_eq_getElem _ _ ha,
    List.getD_eq_getElem _ _ hb]
  simp [addList]

/-! ### Phase-shift compensation lemmas -/

lemma compensate_length (ts : ℕ) (x : List ℂ) (psc off : ℝ) :
    (compensatePhaseShift ts x psc off).length = x.length := by
  simp [compensatePhaseShift]

lemma compensate_getD (ts : ℕ) (x : List ℂ) (psc off : ℝ) (n : ℕ)
    (h : n < x.length) :
    (compensatePhaseShift ts x psc off).getD n 0 =
      x.getD n 0 * cexpTable ts (phaseIdx ts psc off n) := by
  have hn : n < (compensatePhaseShift ts x psc off).length := by
    rwa [compensate_length]
  rw [List.getD_eq_getElem _ _ hn]
  simp [compensatePhaseShift]

lemma roundAway_zero : roundAway 0 = 0 := by
  simp [roundAway]
  norm_num

lemma phaseIdx_zero (ts : ℕ) (n : ℕ) : phaseIdx ts 0 0 n = 0 := by
  simp [phaseIdx, roundAway_zero]

lemma cexpTable_zero_idx (ts : ℕ) : cexpTable ts 0 = 1 := by
  simp [cexpTable]

lemma compensate_zero_phase (ts : ℕ) (x : List ℂ) :
    compensatePhaseShift ts x 0 0 = x := by
  unfold compensatePhaseShift
  have h : ∀ n : ℕ, x.getD n 0 * cexpTable ts (phaseIdx ts 0 0 n) = x.getD n 0 := by
    intro n
    rw [phaseIdx_zero, cexpTable_zero_idx, mul_one]
  calc (List.range x.length).map
        (fun n => x.getD n 0 * cexpTable ts (phaseIdx ts 0 0 n))
      = (List.range x.length).map (fun n => x.getD n 0) := by
        apply List.map_congr_left; intro n _; exact h n
    _ = x := map_getD_range x

/-! ### Mean and average-power lemmas -/

lemma meanC_replicate (n : ℕ) (hn : 0 < n) (z : ℂ) :
    meanC (List.replicate n z) = z := by
  have h : (n : ℂ) ≠ 0 := by exact_mod_cast hn.ne'
  simp only [meanC, List.sum_replicate, List.length_replicate, nsmul_eq_mul]
  field_simp

lemma avgPower_replicate (n : ℕ) (hn : 0 < n) (z : ℂ) :
    avgPower (List.replicate n z) = Complex.normSq z := by
  have h : (n : ℝ) ≠ 0 := by exact_mod_cast hn.ne'
  simp only [avgPower, List.map_replicate, List.sum_replicate,
    List.length_replicate, nsmul_eq_mul]
  field_simp

lemma avgPower_nonneg (l : List ℂ) : 0 ≤ avgPower l := by
  apply div_nonneg
  · apply List.sum_nonneg
    intro x hx
    obtain ⟨z, _, rfl⟩ := List.mem_map.mp hx
    exact Complex.normSq_nonneg z
  · exact Nat.cast_nonneg _

/-! ### Time-alignment combination characterization -/

lemma taCombine_fold_ta (ms : List TaMeas) (acc : TaMeas) :
    (ms.foldl
      (fun acc m =>
        { time_alignment := acc.time_alignment + m.time_alignment
          resolution := max acc.resolution m.resolution
          min := max acc.min m.min
          max := min acc.max m.max })
      acc).time_alignment =
      acc.time_alignment + (ms.map TaMeas.time_alignment).sum := by
  induction ms generalizing acc with
  | nil => simp
  | cons m rest ih => simp [ih, add_assoc]

lemma taCombine_fold_min (ms : List TaMeas) (acc : TaMeas) :
    (ms.foldl
      (fun acc m =>
        { time_alignment := acc.time_alignment + m.time_alignment
          resolution := max acc.resolution m.resolution
          min := max acc.min m.min
          max := min acc.max m.max })
      acc).min = (ms.map TaMeas.min).foldl max acc.min := by
  induction ms generalizing acc with
  | nil => simp
  | cons m rest ih => simp [ih]

lemma taCombine_fold_max (ms : List TaMeas) (acc : TaMeas) :
    (ms.foldl
      (fun acc m =>
        { time_alignment := acc.time_alignment + m.time_alignment
          resolution := max acc.resolution m.resolution
          min := max acc.min m.min
          max := min acc.max m.max })
      acc).max = (ms.map TaMeas.max).foldl min acc.max := by
  induction ms generalizing acc with
  | nil => simp
  | cons m rest ih => simp [ih]

lemma taCombine_fold_res (ms : List TaMeas) (acc : TaMeas) :
    (ms.foldl
      (fun acc m =>
        { time_alignment := acc.time_alignment + m.time_alignment
          resolution := max acc.resolution m.resolution
          min := max acc.min m.min
          max := min acc.max m.max })
      acc).resolution = (ms.map TaMeas.resolution).foldl max acc.resolution := by
  induction ms generalizing acc with
  | nil => simp
  | cons m rest ih => simp [ih]

lemma taCombine_ta (ms : List TaMeas) :
    (taCombine ms).time_alignment = (ms.map TaMeas.time_alignment).sum := by
  unfold taCombine
  rw [taCombine_fold_ta]
  simp

lemma taCombine_min (ms : List TaMeas) :
    (taCombine ms).min = (ms.map TaMeas.min).foldl max dblMin := by
  unfold taCombine
  rw [taCombine_fold_min]

lemma taCombine_max (ms : List TaMeas) :
    (taCombine ms).max = (ms.map TaMeas.max).foldl min dblMax := by
  unfold taCombine
  rw [taCombine_fold_max]

lemma taCombine_res (ms : List TaMeas) :
    (taCombine ms).resolution = (ms.map TaMeas.resolution).foldl max 0 := by
  unfold taCombine
  rw [taCombine_fold_res]

lemma range_map_const {α : Type} (n : ℕ) (z : α) :
    (List.range n).map (fun _ => z) = List.replicate n z := by
  rw [List.map_const']
  simp

lemma range_map_getD {α : Type} (n i : ℕ) (f : ℕ → α) (dflt : α) (h : i < n) :
    ((List.range n).map f).getD i dflt = f i := by
  rw [List.getD_eq_getElem _ _ (by simpa using h)]
  simp

lemma zipWith_getD (f : ℂ → ℂ → ℂ) (a b : List ℂ) (k : ℕ) (ha : k < a.length)
    (hb : k < b.length) :
    (List.zipWith f a b).getD k 0 = f (a.getD k 0) (b.getD k 0) := by
  have hk : k < (List.zipWith f a b).length := by
    rw [List.length_zipWith]; exact lt_min ha hb
  rw [List.getD_eq_getElem _ _ hk, List.getD_eq_getElem _ _ ha,
    List.getD_eq_getElem _ _ hb]
  simp

lemma dblMin_pos : 0 < dblMin := zpow_pos (by norm_num) _

lemma dblMin_le_one : dblMin ≤ 1 :=
  zpow_le_one_of_nonpos₀ (by norm_num) (by norm_num)

lemma one_le_dblMax : 1 ≤ dblMax := by
  unfold dblMax
  nlinarith [pow_pos (show (0:ℝ) < 2 by norm_num) 53,
    one_le_pow₀ (show (1:ℝ) ≤ 2 by norm_num) (n := 971),
    one_le_pow₀ (show (1:ℝ) ≤ 2 by norm_num) (n := 53)]

/-! ### Closed form of the raw symbol accumulation -/

lemma rxSeq_length (g : Grid) (info : SrsInfo) (rx sym : ℕ) :
    (rxSeq g info rx sym).length = info.sequence_length := by
  simp [rxSeq]

lemma rxSeq_getD (g : Grid) (info : SrsInfo) (rx sym k : ℕ)
    (h : k < info.sequence_length) :
    (rxSeq g info rx sym).getD k 0 =
      g rx sym (info.mapping_initial_subcarrier + k * info.comb_size) := by
  unfold rxSeq
  rw [range_map_getD _ _ _ _ h]

lemma rawAccum_fold_spec (g : Grid) (info : SrsInfo) (res : SrsResource)
    (rx n : ℕ) :
    ((((List.range n).map fun s => res.start_symbol + s).foldl
        (fun acc s =>
          if s = res.start_symbol then rxSeq g info rx s
          else addList acc (rxSeq g info rx s))
        (List.replicate info.sequence_length 0)).length =
      info.sequence_length) ∧
    ∀ k < info.sequence_length,
      (((List.range n).map fun s => res.start_symbol + s).foldl
        (fun acc s =>
          if s = res.start_symbol then rxSeq g info rx s
          else addList acc (rxSeq g info rx s))
        (List.replicate info.sequence_length 0)).getD k 0 =
      ∑ s ∈ Finset.range n,
        g rx (res.start_symbol + s)
          (info.mapping_initial_subcarrier + k * info.comb_size) := by
  induction n with
  | zero => simp [replicate_getD]
  | succ m ih =>
    rw [List.range_succ, List.map_append, List.foldl_append]
    simp only [List.map_cons, List.map_nil, List.foldl_cons, List.foldl_nil]
    rcases Nat.eq_zero_or_pos m with hm | hm
    · subst hm
      rw [if_pos (by simp)]
      refine ⟨rxSeq_length g info rx _, fun k hk => ?_⟩
      rw [rxSeq_getD g info rx _ k hk]
      simp
    · rw [if_neg (by omega)]
      refine ⟨?_, fun k hk => ?_⟩
      · rw [addList_length, ih.1, rxSeq_length]
        simp
      · rw [addList_getD _ _ _ (by rw [ih.1]; exact hk)
          (by rw [rxSeq_length]; exact hk),
          ih.2 k hk, rxSeq_getD g info rx _ k hk, Finset.sum_range_succ]

lemma rawAccum_length (g : Grid) (info : SrsInfo) (res : SrsResource)
    (rx : ℕ) : (rawAccum g info res rx).length = info.sequence_length := by
  unfold rawAccum symList
  exact (rawAccum_fold_spec g info res rx res.nof_symbols).1

lemma rawAccum_getD (g : Grid) (info : SrsInfo) (res : SrsResource)
    (rx k : ℕ) (hk : k < info.sequence_length) :
    (rawAccum g info res rx).getD k 0 =
      ∑ s ∈ Finset.range res.nof_symbols,
        g rx (res.start_symbol + s)
          (info.mapping_initial_subcarrier + k * info.comb_size) := by
  unfold rawAccum symList
  exact (rawAccum_fold_spec g info res rx res.nof_symbols).2 k hk

/-! ### Unsigned arithmetic of the noise normalization -/

lemma usub32_no_wrap (a b : ℕ) (hba : b ≤ a) (ha : a < 2 ^ 32) :
    usub32 a b = a - b := by
  unfold usub32
  omega

lemma valid_ntx_pos (d : Deps) (c : SrsCfg) (h : Valid d c) :
    0 < c.resource.nof_antenna_ports := by
  have := h.ntx_mem
  simp at this
  omega

lemma valid_ntx_le (d : Deps) (c : SrsCfg) (h : Valid d c) :
    c.resource.nof_antenna_ports ≤ 4 := by
  have := h.ntx_mem
  simp at this
  omega

lemma valid_nsym_pos (d : Deps) (c : SrsCfg) (h : Valid d c) :
    0 < c.resource.nof_symbols := by
  have := h.nsym_mem
  simp at this
  omega

lemma valid_nsym_le (d : Deps) (c : SrsCfg) (h : Valid d c) :
    c.resource.nof_symbols ≤ 4 := by
  have := h.nsym_mem
  simp at this
  omega

lemma valid_nrx_pos (d : Deps) (c : SrsCfg) (h : Valid d c) :
    0 < c.ports.length :=
  List.length_pos.mpr h.ports_nonempty

lemma nofEstimates_le_four (d : Deps) (c : SrsCfg) (h : Valid d c) :
    nofEstimates d c ≤ 4 := by
  unfold nofEstimates
  split
  · omega
  · exact valid_ntx_le d c h

lemma valid_sub_no_wrap (d : Deps) (c : SrsCfg) (h : Valid d c) :
    usub32 (c.resource.nof_symbols * seqLen d c) (nofEstimates d c) =
      c.resource.nof_symbols * seqLen d c - nofEstimates d c := by
  have h1 := h.seq_min
  have h2 := h.seq_max
  have h3 := valid_nsym_pos d c h
  have h4 := valid_nsym_le d c h
  have h5 := nofEstimates_le_four d c h
  apply usub32_no_wrap
  · calc nofEstimates d c ≤ 4 := h5
      _ ≤ 1 * 12 := by omega
      _ ≤ c.resource.nof_symbols * seqLen d c :=
        Nat.mul_le_mul h3 h1
  · calc c.resource.nof_symbols * seqLen d c ≤ 4 * 1632 :=
        Nat.mul_le_mul h4 h2
      _ < 2 ^ 32 := by norm_num

lemma valid_divisor_eq (d : Deps) (c : SrsCfg) (h : Valid d c) :
    noiseDivisor d c =
      (c.resource.nof_symbols * seqLen d c - nofEstimates d c) *
        correctionFactor d c * c.ports.length := by
  unfold noiseDivisor
  rw [valid_sub_no_wrap d c h]
  apply Nat.mod_eq_of_lt
  have h2 := h.seq_max
  have h4 := valid_nsym_le d c h
  have h6 := h.ports_bound
  have hc : correctionFactor d c ≤ 2 := by
    unfold correctionFactor; split <;> omega
  calc (c.resource.nof_symbols * seqLen d c - nofEstimates d c) *
        correctionFactor d c * c.ports.length
      ≤ (4 * 1632) * 2 * 4 := by
        apply Nat.mul_le_mul _ h6
        apply Nat.mul_le_mul _ hc
        exact le_trans (Nat.sub_le _ _) (Nat.mul_le_mul h4 h2)
    _ < 2 ^ 32 := by norm_num

lemma valid_divisor_pos (d : Deps) (c : SrsCfg) (h : Valid d c) :
    0 < noiseDivisor d c := by
  rw [valid_divisor_eq d c h]
  have h1 := h.seq_min
  have h3 := valid_nsym_pos d c h
  have h5 := nofEstimates_le_four d c h
  have hsub : 0 < c.resource.nof_symbols * seqLen d c - nofEstimates d c := by
    have : 12 ≤ c.resource.nof_symbols * seqLen d c :=
      le_trans (by omega) (Nat.mul_le_mul h3 h1)
    omega
  have hcf : 0 < correctionFactor d c := by
    unfold correctionFactor; split <;> omega
  exact Nat.mul_pos (Nat.mul_pos hsub hcf) (valid_nrx_pos d c h)

lemma extract_good : extractRnti (some ctxGood) = some 17921 := by decide

lemma extract_zero : extractRnti (some ctxZero) = some 0 := by decide

lemma skip_none (P : List ℕ) : skipDiag (demoCfg none P) = true := rfl

lemma skip_good (P : List ℕ) : skipDiag (demoCfg (some ctxGood) P) = false := by
  unfold skipDiag
  have h : (demoCfg (some ctxGood) P).context = some ctxGood := rfl
  rw [h, extract_good]
  decide

lemma demo_interleaved (t : TaMeas) (ctx : Option (List Char)) (P : List ℕ) :
    interleavedPilots (demoDeps t) (demoCfg ctx P) = false := rfl

lemma demo_seqLen (t : TaMeas) (ctx : Option (List Char)) (P : List ℕ) :
    seqLen (demoDeps t) (demoCfg ctx P) = 12 := rfl

lemma demo_rxSeq (v : ℕ → ℂ) (rx sym : ℕ) :
    rxSeq (demoGrid v) demoInfo rx sym = List.replicate 12 (v rx) := by
  unfold rxSeq demoGrid
  exact range_map_const 12 (v rx)

lemma demo_symList : symList demoRes = [0] := rfl

lemma demo_rawAccum (v : ℕ → ℂ) (rx : ℕ) :
    rawAccum (demoGrid v) demoInfo demoRes rx = List.replicate 12 (v rx) := by
  unfold rawAccum
  rw [demo_symList]
  simp only [List.foldl_cons, List.foldl_nil]
  have hs : (0 : ℕ) = demoRes.start_symbol := rfl
  rw [if_pos hs, demo_rxSeq]

lemma demo_pilotSeq (t : TaMeas) (ctx : Option (List Char)) (P : List ℕ)
    (p : ℕ) :
    pilotSeq (demoDeps t) (demoCfg ctx P) p = List.replicate 12 1 := by
  unfold pilotSeq
  rw [demo_seqLen]
  exact range_map_const 12 1

lemma demo_lseRaw (t : TaMeas) (ctx : Option (List Char)) (P : List ℕ)
    (v : ℕ → ℂ) (r p : ℕ) :
    lseRaw (demoDeps t) (demoGrid v) (demoCfg ctx P) r p =
      List.replicate 12 (v (P.getD r 0)) := by
  unfold lseRaw
  have h1 : infoAt (demoDeps t) (demoCfg ctx P) p = demoInfo := rfl
  have h2 : (demoCfg ctx P).resource = demoRes := rfl
  have h3 : rxPortAt (demoCfg ctx P) r = P.getD r 0 := rfl
  rw [h1, h2, h3, demo_rawAccum, demo_pilotSeq]
  dsimp only
  rw [if_neg (by decide), zipWith_replicate_eq _ 12 _ _]
  simp

lemma demo_taMeasList (t : TaMeas) (ctx : Option (List Char)) (P : List ℕ)
    (v : ℕ → ℂ) :
    taMeasList (demoDeps t) (demoGrid v) (demoCfg ctx P) = [t] := by
  unfold taMeasList
  have h : (demoCfg ctx P).resource.nof_antenna_ports = 1 := rfl
  rw [h, (by decide : List.range 1 = [0]), List.map_cons, List.map_nil]
  rfl

lemma demo_taFinal (t : TaMeas) (ctx : Option (List Char)) (P : List ℕ)
    (v : ℕ → ℂ) :
    taFinalVal (demoDeps t) (demoGrid v) (demoCfg ctx P) = t.time_alignment := by
  unfold taFinalVal
  rw [demo_taMeasList, taCombine_ta]
  have h : (demoCfg ctx P).resource.nof_antenna_ports = 1 := rfl
  rw [h]
  simp

lemma demo_psc (t : TaMeas) (ht : t.time_alignment = 0)
    (ctx : Option (List Char)) (P : List ℕ) (v : ℕ → ℂ) :
    pscVal (demoDeps t) (demoGrid v) (demoCfg ctx P) = 0 := by
  unfold pscVal
  rw [demo_taFinal, ht]
  ring

lemma demo_off (t : TaMeas) (ht : t.time_alignment = 0)
    (ctx : Option (List Char)) (P : List ℕ) (v : ℕ → ℂ) (p : ℕ) :
    offVal (demoDeps t) (demoGrid v) (demoCfg ctx P) p = 0 := by
  unfold offVal
  rw [demo_psc t ht]
  ring

lemma demo_coeff (ts : ℕ) (t : TaMeas) (ht : t.time_alignment = 0)
    (ctx : Option (List Char)) (P : List ℕ) (v : ℕ → ℂ) (r p : ℕ) :
    coefficientAt ts (demoDeps t) (demoGrid v) (demoCfg ctx P) r p =
      v (P.getD r 0) := by
  unfold coefficientAt lseComp
  rw [demo_psc t ht, demo_off t ht, compensate_zero_phase, demo_lseRaw,
    meanC_replicate 12 (by norm_num)]

lemma demo_noiseAcc0 (t : TaMeas) (ctx : Option (List Char)) (P : List ℕ)
    (v : ℕ → ℂ) (r : ℕ) :
    noiseAcc (demoDeps t) (demoGrid v) (demoCfg ctx P) 0 r =
      List.replicate 12 (v (P.getD r 0)) := by
  unfold noiseAcc
  rw [if_pos (Or.inl rfl)]
  have h2 : (demoCfg ctx P).resource = demoRes := rfl
  have h3 : rxPortAt (demoCfg ctx P) r = P.getD r 0 := rfl
  have h4 : infoAt (demoDeps t) (demoCfg ctx P) 0 = demoInfo := rfl
  rw [h2, h3, h4, demo_symList, demo_seqLen]
  simp only [List.foldl_cons, List.foldl_nil]
  rw [demo_rxSeq]
  unfold addList
  rw [zipWith_replicate_eq _ 12 _ _, zero_add]

lemma demo_noiseAcc1 (t : TaMeas) (ctx : Option (List Char)) (P : List ℕ)
    (v : ℕ → ℂ) (r : ℕ) :
    noiseAcc (demoDeps t) (demoGrid v) (demoCfg ctx P) 1 r =
      List.replicate 12 0 := by
  unfold noiseAcc
  have hI := demo_interleaved t ctx P
  rw [if_neg (by simp [hI]), demo_seqLen]

lemma demo_residual_noskip (ts : ℕ) (t : TaMeas) (ht : t.time_alignment = 0)
    (ctx : Option (List Char)) (P : List ℕ) (v : ℕ → ℂ)
    (hskip : skipDiag (demoCfg ctx P) = false) (r : ℕ) :
    residualPair ts (demoDeps t) (demoGrid v) (demoCfg ctx P) r =
      (List.replicate 12 0, List.replicate 12 0) := by
  unfold residualPair
  rw [hskip]
  have h1 : (demoCfg ctx P).resource.nof_antenna_ports = 1 := rfl
  rw [h1, (by decide : List.range 1 = [0])]
  simp only [Bool.false_eq_true, if_false, List.foldl_cons, List.foldl_nil]
  unfold noiseStep
  have hI := demo_interleaved t ctx P
  simp only [hI, Bool.false_eq_true, if_false]
  simp only [demo_noiseAcc0, demo_noiseAcc1, if_pos rfl,
    if_pos (Or.inl rfl : (0 : ℕ) = 0 ∨
      (interleavedPilots (demoDeps t) (demoCfg ctx P) = true ∧ (0 : ℕ) = 1))]
  rw [demo_psc t ht, demo_off t ht, compensate_zero_phase,
    demo_pilotSeq, demo_coeff ts t ht]
  have h2 : ((demoCfg ctx P).resource.nof_symbols : ℂ) = 1 := by
    have : (demoCfg ctx P).resource.nof_symbols = 1 := rfl
    rw [this, Nat.cast_one]
  rw [h2, List.map_replicate]
  simp [zipWith_replicate_eq]

lemma demo_residual_skip (ts : ℕ) (t : TaMeas) (ctx : Option (List Char))
    (P : List ℕ) (v : ℕ → ℂ) (hskip : skipDiag (demoCfg ctx P) = true)
    (r : ℕ) :
    residualPair ts (demoDeps t) (demoGrid v) (demoCfg ctx P) r =
      (List.replicate 12 (v (P.getD r 0)), List.replicate 12 0) := by
  unfold residualPair
  rw [hskip]
  simp only [if_true, demo_noiseAcc0, demo_noiseAcc1]

lemma demo_noiseTotal_noskip (ts : ℕ) (t : TaMeas) (ht : t.time_alignment = 0)
    (ctx : Option (List Char)) (P : List ℕ) (v : ℕ → ℂ)
    (hskip : skipDiag (demoCfg ctx P) = false) :
    noiseAccumTotal ts (demoDeps t) (demoGrid v) (demoCfg ctx P) = 0 := by
  unfold noiseAccumTotal
  have hI := demo_interleaved t ctx P
  simp only [demo_residual_noskip ts t ht ctx P v hskip, hI,
    Bool.false_eq_true, if_false]
  have h0 : avgPower (List.replicate 12 (0 : ℂ)) = 0 := by
    rw [avgPower_replicate 12 (by norm_num)]
    simp
  simp only [h0, zero_mul, add_zero, range_map_const, List.sum_replicate,
    smul_zero]

lemma demo_noiseTotal_skip (ts : ℕ) (t : TaMeas) (ctx : Option (List Char))
    (P : List ℕ) (v : ℕ → ℂ) (hskip : skipDiag (demoCfg ctx P) = true) :
    noiseAccumTotal ts (demoDeps t) (demoGrid v) (demoCfg ctx P) =
      ∑ r ∈ Finset.range P.length, Complex.normSq (v (P.getD r 0)) * 12 := by
  unfold noiseAccumTotal
  have hI := demo_interleaved t ctx P
  simp only [demo_residual_skip ts t ctx P v hskip, hI,
    Bool.false_eq_true, if_false]
  have h2 : (demoCfg ctx P).ports = P := rfl
  rw [h2, sumList_range_real]
  apply Finset.sum_congr rfl
  intro r _
  rw [avgPower_replicate 12 (by norm_num)]
  simp

lemma demo_rsrp_noskip (ts : ℕ) (t : TaMeas) (ht : t.time_alignment = 0)
    (ctx : Option (List Char)) (P : List ℕ) (v : ℕ → ℂ)
    (hskip : skipDiag (demoCfg ctx P) = false) :
    rsrpAccVal ts (demoDeps t) (demoGrid v) (demoCfg ctx P) =
      ∑ r ∈ Finset.range P.length, Complex.normSq (v (P.getD r 0)) := by
  unfold rsrpAccVal
  rw [hskip]
  simp only [Bool.false_eq_true, if_false]
  have h1 : (demoCfg ctx P).resource.nof_antenna_ports = 1 := rfl
  have h2 : (demoCfg ctx P).ports = P := rfl
  rw [h1, h2, sumList_range_real]
  apply Finset.sum_congr rfl
  intro r _
  rw [(by decide : List.range 1 = [0]), List.map_cons, List.map_nil,
    List.sum_cons, List.sum_nil, demo_coeff ts t ht, add_zero]

lemma taCombine_single (t : TaMeas) :
    taCombine [t] =
      { time_alignment := 0 + t.time_alignment
        resolution := max 0 t.resolution
        min := max dblMin t.min
        max := min dblMax t.max } := rfl

lemma demo_ta_result (ts : ℕ) (t : TaMeas) (ctx : Option (List Char))
    (P : List ℕ) (v : ℕ → ℂ) :
    (estimate ts (demoDeps t) (demoGrid v) (demoCfg ctx P)).time_alignment =
      { time_alignment := t.time_alignment
        resolution := max 0 t.resolution
        min := max dblMin t.min
        max := min dblMax t.max } := by
  show taResultVal (demoDeps t) (demoGrid v) (demoCfg ctx P) = _
  unfold taResultVal
  rw [demo_taMeasList t ctx P v, demo_taFinal t ctx P v, taCombine_single]

lemma foldl_max_const (m : ℝ) :
    ∀ (l : List ℝ), (∀ x ∈ l, x = m) → l ≠ [] → ∀ a : ℝ,
      l.foldl max a = max a m
  | [], _, hne, _ => absurd rfl hne
  | x :: rest, hall, _, a => by
    rw [List.foldl_cons]
    rcases eq_or_ne rest [] with h | h
    · subst h
      rw [List.foldl_nil, hall x (by simp)]
    · rw [foldl_max_const m rest (fun y hy => hall y (by simp [hy])) h (max a x),
        hall x (by simp), max_assoc, max_self]

lemma foldl_min_const (m : ℝ) :
    ∀ (l : List ℝ), (∀ x ∈ l, x = m) → l ≠ [] → ∀ a : ℝ,
      l.foldl min a = min a m
  | [], _, hne, _ => absurd rfl hne
  | x :: rest, hall, _, a => by
    rw [List.foldl_cons]
    rcases eq_or_ne rest [] with h | h
    · subst h
      rw [List.foldl_nil, hall x (by simp)]
    · rw [foldl_min_const m rest (fun y hy => hall y (by simp [hy])) h (min a x),
        hall x (by simp), min_assoc, min_self]

lemma rsrpAcc_nonneg (ts : ℕ) (d : Deps) (g : Grid) (c : SrsCfg) :
    0 ≤ rsrpAccVal ts d g c := by
  unfold rsrpAccVal
  split
  · exact le_refl 0
  · apply List.sum_nonneg
    intro x hx
    obtain ⟨r, _, rfl⟩ := List.mem_map.mp hx
    apply List.sum_nonneg
    intro y hy
    obtain ⟨p, _, rfl⟩ := List.mem_map.mp hy
    exact Complex.normSq_nonneg _

lemma noiseStd_zero_rsrp (ts : ℕ) (d : Deps) (g : Grid) (c : SrsCfg)
    (h0 : noiseStdVal ts d g c = 0) : rsrpAccVal ts d g c = 0 := by
  have hb : Real.sqrt (rsrpAccVal ts d g c) * (1 / 100) ≤
      noiseStdVal ts d g c := le_max_right _ _
  rw [h0] at hb
  have hs : Real.sqrt (rsrpAccVal ts d g c) ≤ 0 := by linarith
  have hs0 : Real.sqrt (rsrpAccVal ts d g c) = 0 :=
    le_antisymm hs (Real.sqrt_nonneg _)
  have h1 := Real.sqrt_eq_zero'.mp hs0
  have h2 := rsrpAcc_nonneg ts d g c
  linarith

lemma rsrpAcc_zero_coeff (ts : ℕ) (d : Deps) (g : Grid) (c : SrsCfg)
    (h0 : rsrpAccVal ts d g c = 0) (hsk : skipDiag c = false) (r p : ℕ)
    (hr : r < c.ports.length) (hp : p < c.resource.nof_antenna_ports) :
    coefficientAt ts d g c r p = 0 := by
  have hsum : rsrpAccVal ts d g c =
      ∑ i ∈ Finset.range c.ports.length,
        ∑ j ∈ Finset.range c.resource.nof_antenna_ports,
          Complex.normSq (coefficientAt ts d g c i j) := by
    unfold rsrpAccVal
    rw [hsk]
    simp only [Bool.false_eq_true, if_false]
    rw [sumList_range_real]
    apply Finset.sum_congr rfl
    intro i _
    rw [sumList_range_real]
  rw [hsum] at h0
  have h1 := (Finset.sum_eq_zero_iff_of_nonneg
    (fun i _ => Finset.sum_nonneg
      (fun j _ => Complex.normSq_nonneg (coefficientAt ts d g c i j)))).mp h0
    r (Finset.mem_range.mpr hr)
  have h2 := (Finset.sum_eq_zero_iff_of_nonneg
    (fun j _ => Complex.normSq_nonneg (coefficientAt ts d g c r j))).mp h1
    p (Finset.mem_range.mpr hp)
  exact Complex.normSq_eq_zero.mp h2

lemma noiseStd_zero_unscaled (ts : ℕ) (d : Deps) (g : Grid) (c : SrsCfg)
    (h0 : noiseStdVal ts d g c = 0) (r p : ℕ) (hr : r < c.ports.length)
    (hp : p < c.resource.nof_antenna_ports) :
    entryUnscaled ts d g c r p = 0 := by
  unfold entryUnscaled
  cases hb : skipDiag c
  · simp only [Bool.false_eq_true, if_false]
    exact rsrpAcc_zero_coeff ts d g c (noiseStd_zero_rsrp ts d g c h0) hb
      r p hr hp
  · simp

lemma matrixEntry_skip (ts : ℕ) (d : Deps) (g : Grid) (c : SrsCfg) (r p : ℕ)
    (hs : skipDiag c = true) : matrixEntry ts d g c r p = 0 := by
  unfold matrixEntry
  rw [hs]
  simp

lemma two_le_dblMax : (2 : ℝ) ≤ dblMax := by
  unfold dblMax
  nlinarith [one_le_pow₀ (show (1:ℝ) ≤ 2 by norm_num) (n := 971),
    pow_pos (show (0:ℝ) < 2 by norm_num) 971,
    show (4:ℝ) ≤ 2 ^ 53 by norm_num]

lemma demoValid1 (t : TaMeas) (ctx : Option (List Char)) :
    Valid (demoDeps t) (demoCfg ctx [0]) := by
  constructor <;> simp [demoCfg, demoRes, demoDeps, demoInfo, seqLen, infoAt]

lemma demoValid2 (t : TaMeas) (ctx : Option (List Char)) :
    Valid (demoDeps t) (demoCfg ctx [0, 1]) := by
  constructor <;> simp [demoCfg, demoRes, demoDeps, demoInfo, seqLen, infoAt]

lemma map_getD (f : ℂ → ℂ) (l : List ℂ) (k : ℕ) (hk : k < l.length) :
    (l.map f).getD k 0 = f (l.getD k 0) := by
  rw [List.getD_eq_getElem _ _ (by simpa using hk), List.getD_eq_getElem _ _ hk]
  simp

/-! ### Claim theorems -/

/-- C1: the diagnostic observer must never influence the value returned by
`estimate`; the code violates this.  Two requests that are identical except
for the optional context (one absent, one carrying `rnti=0x4601`) produce
different noise variances: when the context is absent the collector block's
`continue` skips the coefficient computation and the reconstructed-signal
subtraction, so the residual buffers keep the raw received power. -/
theorem C1_sink_alters_result :
    (estimate 1024 (demoDeps taZero) (demoGrid fun _ => 2)
        (demoCfg none [0])).noise_variance ≠
      (estimate 1024 (demoDeps taZero) (demoGrid fun _ => 2)
        (demoCfg (some ctxGood) [0])).noise_variance := by
  have hA : (estimate 1024 (demoDeps taZero) (demoGrid fun _ => 2)
      (demoCfg none [0])).noise_variance = 48 / 11 := by
    show noiseVarFinal 1024 (demoDeps taZero) (demoGrid fun _ => 2)
        (demoCfg none [0]) = 48 / 11
    unfold noiseVarFinal
    rw [demo_noiseTotal_skip 1024 taZero none [0] (fun _ => 2) (skip_none [0])]
    rw [(by decide : noiseDivisor (demoDeps taZero) (demoCfg none [0]) = 11)]
    rw [show ([0] : List ℕ).length = 1 from rfl, Finset.sum_range_one]
    norm_num [Complex.normSq_apply]
  have hB : (estimate 1024 (demoDeps taZero) (demoGrid fun _ => 2)
      (demoCfg (some ctxGood) [0])).noise_variance = 0 := by
    show noiseVarFinal 1024 (demoDeps taZero) (demoGrid fun _ => 2)
        (demoCfg (some ctxGood) [0]) = 0
    unfold noiseVarFinal
    rw [demo_noiseTotal_noskip 1024 taZero rfl (some ctxGood) [0] (fun _ => 2)
      (skip_good [0])]
    simp
  rw [hA, hB]
  norm_num

/-- C2: whenever the context is absent, carries no parseable `rnti=0x`
token, or parses to RNTI zero, every `(rx, tx)` loop iteration is left at
the diagnostic block: the returned channel matrix keeps its fresh all-zero
contents, nothing is accumulated into the RSRP numerator, and the
noise-helper buffers keep their first-pass contents (no phase compensation,
no reconstructed-signal subtraction). -/
theorem C2_skip_paths (ts : ℕ) (d : Deps) (g : Grid) (c : SrsCfg)
    (hskip : c.context = none ∨ extractRnti c.context = none ∨
      extractRnti c.context = some 0) :
    (estimate ts d g c).channel_matrix =
      List.replicate c.ports.length
        (List.replicate c.resource.nof_antenna_ports 0) ∧
    rsrpAccVal ts d g c = 0 ∧
    ∀ r, residualPair ts d g c r =
      (noiseAcc d g c 0 r, noiseAcc d g c 1 r) := by
  have hs : skipDiag c = true := by
    unfold skipDiag
    rcases hskip with h | h | h
    · rw [h]
      rfl
    · rw [h]
    · rw [h]
      rfl
  refine ⟨?_, ?_, ?_⟩
  · have hm : (estimate ts d g c).channel_matrix =
        (List.range c.ports.length).map fun r =>
          (List.range c.resource.nof_antenna_ports).map fun p =>
            matrixEntry ts d g c r p := rfl
    rw [hm]
    have h1 : ∀ r : ℕ,
        ((List.range c.resource.nof_antenna_ports).map fun p =>
          matrixEntry ts d g c r p) =
          List.replicate c.resource.nof_antenna_ports (0 : ℂ) := by
      intro r
      rw [show (fun p => matrixEntry ts d g c r p) = (fun _ : ℕ => (0 : ℂ))
        from funext fun p => matrixEntry_skip ts d g c r p hs]
      exact range_map_const _ _
    rw [show (fun r => (List.range c.resource.nof_antenna_ports).map fun p =>
        matrixEntry ts d g c r p) =
        (fun _ : ℕ => List.replicate c.resource.nof_antenna_ports (0 : ℂ))
      from funext h1]
    exact range_map_const _ _
  · unfold rsrpAccVal
    rw [hs]
    simp
  · intro r
    unfold residualPair
    rw [hs]
    simp

/-- C2 witness: a request whose context is formatted as `"rnti=0x0"` (the
token parses but the RNTI is zero). -/
theorem C2_skip_paths_witness :
    ((demoCfg (some ctxZero) [0]).context = none ∨
      extractRnti (demoCfg (some ctxZero) [0]).context = none ∨
      extractRnti (demoCfg (some ctxZero) [0]).context = some 0) ∧
    ((estimate 1024 (demoDeps taZero) (demoGrid v34)
        (demoCfg (some ctxZero) [0])).channel_matrix =
      List.replicate (demoCfg (some ctxZero) [0]).ports.length
        (List.replicate
          (demoCfg (some ctxZero) [0]).resource.nof_antenna_ports 0) ∧
    rsrpAccVal 1024 (demoDeps taZero) (demoGrid v34)
      (demoCfg (some ctxZero) [0]) = 0 ∧
    ∀ r, residualPair 1024 (demoDeps taZero) (demoGrid v34)
        (demoCfg (some ctxZero) [0]) r =
      (noiseAcc (demoDeps taZero) (demoGrid v34) (demoCfg (some ctxZero) [0]) 0 r,
        noiseAcc (demoDeps taZero) (demoGrid v34) (demoCfg (some ctxZero) [0]) 1 r)) :=
  ⟨Or.inr (Or.inr (by decide)),
    C2_skip_paths 1024 (demoDeps taZero) (demoGrid v34)
      (demoCfg (some ctxZero) [0]) (Or.inr (Or.inr (by decide)))⟩

/-- C3 counterexample: the finiteness half of the claim fails on the code.
On a structurally valid request whose received grid is all zero, both the
noise variance and the RSRP accumulator are zero, so `noise_std = 0.0f`;
the scaling of line 513 computes `1/0.0f = +inf` and multiplies the zero
entry components by it, producing NaN — a non-finite channel-matrix
entry. -/
theorem C3_finiteness_cx :
    ¬ (entryRe 1024 (demoDeps taZero) (demoGrid fun _ => 0)
        (demoCfg (some ctxGood) [0]) 0 0).isFinite := by
  have hrsrp : rsrpAccVal 1024 (demoDeps taZero) (demoGrid fun _ => 0)
      (demoCfg (some ctxGood) [0]) = 0 := by
    rw [demo_rsrp_noskip 1024 taZero rfl (some ctxGood) [0] (fun _ => 0)
      (skip_good [0])]
    simp
  have hnv : noiseVarFinal 1024 (demoDeps taZero) (demoGrid fun _ => 0)
      (demoCfg (some ctxGood) [0]) = 0 := by
    unfold noiseVarFinal
    rw [demo_noiseTotal_noskip 1024 taZero rfl (some ctxGood) [0] (fun _ => 0)
      (skip_good [0])]
    simp
  have hns : noiseStdVal 1024 (demoDeps taZero) (demoGrid fun _ => 0)
      (demoCfg (some ctxGood) [0]) = 0 := by
    unfold noiseStdVal
    rw [hnv, hrsrp, Real.sqrt_zero]
    simp
  have hco : coefficientAt 1024 (demoDeps taZero) (demoGrid fun _ => 0)
      (demoCfg (some ctxGood) [0]) 0 0 = 0 :=
    demo_coeff 1024 taZero rfl (some ctxGood) [0] (fun _ => 0) 0 0
  have hnan : entryRe 1024 (demoDeps taZero) (demoGrid fun _ => 0)
      (demoCfg (some ctxGood) [0]) 0 0 = FComp.nan := by
    unfold entryRe entryUnscaled scaleComp
    rw [skip_good [0]]
    simp only [Bool.false_eq_true, if_false]
    rw [hco, if_pos hns]
    simp
  rw [hnan]
  exact id

/-- C3 amended: for every structurally valid request the returned channel
matrix has shape |rx_ports| × |tx_ports|, and its entries are finite
complex numbers (equal to the idealized `matrixEntry` values) exactly when
`noise_std ≠ 0`; when `noise_std = 0` (possible with an all-zero grid) the
IEEE scaling `1/0.0f = +inf` applied to the then-zero unscaled entries
makes every entry component NaN, hence non-finite. -/
theorem C3_matrix_shape_amended (ts : ℕ) (d : Deps) (g : Grid) (c : SrsCfg)
    (h : Valid d c) :
    (estimate ts d g c).channel_matrix.length = c.ports.length ∧
    (∀ row ∈ (estimate ts d g c).channel_matrix,
      row.length = c.resource.nof_antenna_ports) ∧
    (∀ r p, r < c.ports.length → p < c.resource.nof_antenna_ports →
      ((estimate ts d g c).channel_matrix.getD r []).getD p 0 =
        matrixEntry ts d g c r p) ∧
    (noiseStdVal ts d g c ≠ 0 →
      ∀ r p, r < c.ports.length → p < c.resource.nof_antenna_ports →
        (entryRe ts d g c r p).isFinite ∧ (entryIm ts d g c r p).isFinite ∧
        entryRe ts d g c r p = FComp.fin ((matrixEntry ts d g c r p).re) ∧
        entryIm ts d g c r p = FComp.fin ((matrixEntry ts d g c r p).im)) ∧
    (noiseStdVal ts d g c = 0 →
      ∀ r p, r < c.ports.length → p < c.resource.nof_antenna_ports →
        entryRe ts d g c r p = FComp.nan ∧
        entryIm ts d g c r p = FComp.nan) := by
  have hm : (estimate ts d g c).channel_matrix =
      (List.range c.ports.length).map fun r =>
        (List.range c.resource.nof_antenna_ports).map fun p =>
          matrixEntry ts d g c r p := rfl
  refine ⟨by rw [hm]; simp, ?_, ?_, ?_, ?_⟩
  · intro row hrow
    rw [hm] at hrow
    obtain ⟨r, _, rfl⟩ := List.mem_map.mp hrow
    simp
  · intro r p hr hp
    rw [hm, range_map_getD _ _ _ _ hr, range_map_getD _ _ _ _ hp]
  · intro hns r p hr hp
    have hre : entryRe ts d g c r p =
        FComp.fin ((matrixEntry ts d g c r p).re) := by
      unfold entryRe scaleComp matrixEntry entryUnscaled
      rw [if_neg hns]
      congr 1
      rw [Complex.mul_re, Complex.ofReal_re, Complex.ofReal_im, mul_zero,
        sub_zero]
    have him : entryIm ts d g c r p =
        FComp.fin ((matrixEntry ts d g c r p).im) := by
      unfold entryIm scaleComp matrixEntry entryUnscaled
      rw [if_neg hns]
      congr 1
      rw [Complex.mul_im, Complex.ofReal_re, Complex.ofReal_im, mul_zero,
        zero_add]
    exact ⟨by rw [hre]; trivial, by rw [him]; trivial, hre, him⟩
  · intro hns r p hr hp
    have hu := noiseStd_zero_unscaled ts d g c hns r p hr hp
    constructor
    · unfold entryRe scaleComp
      rw [hu, if_pos hns]
      simp
    · unfold entryIm scaleComp
      rw [hu, if_pos hns]
      simp

/-- C3 amended witness at a concrete valid request. -/
theorem C3_matrix_shape_amended_witness :
    Valid (demoDeps taZero) (demoCfg (some ctxGood) [0]) ∧
    ((estimate 1024 (demoDeps taZero) (demoGrid v34)
        (demoCfg (some ctxGood) [0])).channel_matrix.length =
      (demoCfg (some ctxGood) [0]).ports.length ∧
    (∀ row ∈ (estimate 1024 (demoDeps taZero) (demoGrid v34)
        (demoCfg (some ctxGood) [0])).channel_matrix,
      row.length = (demoCfg (some ctxGood) [0]).resource.nof_antenna_ports) ∧
    (∀ r p, r < (demoCfg (some ctxGood) [0]).ports.length →
      p < (demoCfg (some ctxGood) [0]).resource.nof_antenna_ports →
      ((estimate 1024 (demoDeps taZero) (demoGrid v34)
          (demoCfg (some ctxGood) [0])).channel_matrix.getD r []).getD p 0 =
        matrixEntry 1024 (demoDeps taZero) (demoGrid v34)
          (demoCfg (some ctxGood) [0]) r p) ∧
    (noiseStdVal 1024 (demoDeps taZero) (demoGrid v34)
        (demoCfg (some ctxGood) [0]) ≠ 0 →
      ∀ r p, r < (demoCfg (some ctxGood) [0]).ports.length →
        p < (demoCfg (some ctxGood) [0]).resource.nof_antenna_ports →
        (entryRe 1024 (demoDeps taZero) (demoGrid v34)
          (demoCfg (some ctxGood) [0]) r p).isFinite ∧
        (entryIm 1024 (demoDeps taZero) (demoGrid v34)
          (demoCfg (some ctxGood) [0]) r p).isFinite ∧
        entryRe 1024 (demoDeps taZero) (demoGrid v34)
            (demoCfg (some ctxGood) [0]) r p =
          FComp.fin ((matrixEntry 1024 (demoDeps taZero) (demoGrid v34)
            (demoCfg (some ctxGood) [0]) r p).re) ∧
        entryIm 1024 (demoDeps taZero) (demoGrid v34)
            (demoCfg (some ctxGood) [0]) r p =
          FComp.fin ((matrixEntry 1024 (demoDeps taZero) (demoGrid v34)
            (demoCfg (some ctxGood) [0]) r p).im)) ∧
    (noiseStdVal 1024 (demoDeps taZero) (demoGrid v34)
        (demoCfg (some ctxGood) [0]) = 0 →
      ∀ r p, r < (demoCfg (some ctxGood) [0]).ports.length →
        p < (demoCfg (some ctxGood) [0]).resource.nof_antenna_ports →
        entryRe 1024 (demoDeps taZero) (demoGrid v34)
            (demoCfg (some ctxGood) [0]) r p = FComp.nan ∧
        entryIm 1024 (demoDeps taZero) (demoGrid v34)
            (demoCfg (some ctxGood) [0]) r p = FComp.nan)) :=
  ⟨demoValid1 taZero (some ctxGood),
    C3_matrix_shape_amended 1024 (demoDeps taZero) (demoGrid v34)
      (demoCfg (some ctxGood) [0]) (demoValid1 taZero (some ctxGood))⟩

/-- C4 counterexample: the starting bound of the aggregated `min` is
`std::numeric_limits<double>::min()`, the smallest *positive* normalized
double, not the lowest double of the "widest representable range".  With a
single port whose measurement has `min = -1`, the code returns
`min = 2^(-1022)` while the spec combination returns `-1`. -/
theorem C4_ta_aggregation_cx :
    (estimate 1024 (demoDeps taNeg) (demoGrid fun _ => 0)
        (demoCfg none [0])).time_alignment ≠
      specTaResult (demoDeps taNeg) (demoGrid fun _ => 0) (demoCfg none [0]) := by
  intro h
  have hmin := congrArg TaMeas.min h
  rw [demo_ta_result] at hmin
  have hspec : (specTaResult (demoDeps taNeg) (demoGrid fun _ => 0)
      (demoCfg none [0])).min = max (-dblMax) taNeg.min := by
    have h1 : (specTaResult (demoDeps taNeg) (demoGrid fun _ => 0)
        (demoCfg none [0])).min =
        (specTaCombine (taMeasList (demoDeps taNeg) (demoGrid fun _ => 0)
          (demoCfg none [0]))).min := rfl
    rw [h1, demo_taMeasList]
    rfl
  rw [hspec] at hmin
  dsimp only at hmin
  have hn : taNeg.min = (-1 : ℝ) := rfl
  rw [hn, max_eq_left (by linarith [dblMin_pos]),
    max_eq_right (by linarith [one_le_dblMax])] at hmin
  linarith [dblMin_pos]

/-- C4 amended: the per-port measurements are combined exactly as the claim
says except for the starting bounds: the running `max` of the `min` fields
starts at `dblMin = 2^(-1022)` (the smallest positive normalized double,
`std::numeric_limits<double>::min()`), not at the lowest double; the
running `min` of the `max` fields starts at the largest finite double; the
estimate is the arithmetic mean and the resolution the running maximum
starting at zero. -/
theorem C4_ta_aggregation_amended (ts : ℕ) (d : Deps) (g : Grid) (c : SrsCfg) :
    (estimate ts d g c).time_alignment.time_alignment =
      ((taMeasList d g c).map TaMeas.time_alignment).sum /
        (c.resource.nof_antenna_ports : ℝ) ∧
    (estimate ts d g c).time_alignment.min =
      ((taMeasList d g c).map TaMeas.min).foldl max dblMin ∧
    (estimate ts d g c).time_alignment.max =
      ((taMeasList d g c).map TaMeas.max).foldl min dblMax ∧
    (estimate ts d g c).time_alignment.resolution =
      ((taMeasList d g c).map TaMeas.resolution).foldl max 0 ∧
    dblMin = 2 ^ (-1022 : ℤ) ∧ dblMax = (2 ^ 53 - 1) * 2 ^ (971 : ℕ) := by
  have h1 : (estimate ts d g c).time_alignment = taResultVal d g c := rfl
  rw [h1]
  unfold taResultVal taFinalVal
  refine ⟨?_, ?_, ?_, ?_, rfl, rfl⟩
  · dsimp only
    rw [taCombine_ta]
  · dsimp only
    exact taCombine_min _
  · dsimp only
    exact taCombine_max _
  · dsimp only
    exact taCombine_res _

/-- C9 counterexample: with a single port whose measurement is
`{estimate 0, min -1, max 1}`, the aggregated `min` is `2^(-1022)` while
the aggregated estimate is `0`, so `min ≤ estimate` fails. -/
theorem C9_ta_order_cx :
    ¬ ((estimate 1024 (demoDeps taNeg) (demoGrid fun _ => 0)
          (demoCfg none [0])).time_alignment.min ≤
        (estimate 1024 (demoDeps taNeg) (demoGrid fun _ => 0)
          (demoCfg none [0])).time_alignment.time_alignment) := by
  rw [demo_ta_result]
  dsimp only
  have hn : taNeg.min = (-1 : ℝ) := rfl
  have hta : taNeg.time_alignment = (0 : ℝ) := rfl
  rw [hn, hta, max_eq_left (by linarith [dblMin_pos])]
  linarith [dblMin_pos]

/-- C9 amended: `min ≤ estimate ≤ max` does hold provided all per-port
measurements share the same bounds `m ≤ estimate_p ≤ M`, the common upper
bound is a representable double, and the aggregated estimate is at least
`dblMin = 2^(-1022)` (the actual starting value of the aggregated `min`). -/
theorem C9_ta_order_amended (ts : ℕ) (d : Deps) (g : Grid) (c : SrsCfg)
    (m M : ℝ) (h : Valid d c)
    (hb : ∀ p < c.resource.nof_antenna_ports,
      (taMeasAt d g c p).min = m ∧ (taMeasAt d g c p).max = M ∧
        m ≤ (taMeasAt d g c p).time_alignment ∧
        (taMeasAt d g c p).time_alignment ≤ M)
    (hM : M ≤ dblMax)
    (hest : dblMin ≤ (estimate ts d g c).time_alignment.time_alignment) :
    (estimate ts d g c).time_alignment.min ≤
        (estimate ts d g c).time_alignment.time_alignment ∧
      (estimate ts d g c).time_alignment.time_alignment ≤
        (estimate ts d g c).time_alignment.max := by
  have hnpos : 0 < c.resource.nof_antenna_ports := valid_ntx_pos d c h
  have hta : (estimate ts d g c).time_alignment.time_alignment =
      (∑ p ∈ Finset.range c.resource.nof_antenna_ports,
        (taMeasAt d g c p).time_alignment) /
        (c.resource.nof_antenna_ports : ℝ) := by
    have h1 : (estimate ts d g c).time_alignment.time_alignment =
        taFinalVal d g c := rfl
    rw [h1]
    unfold taFinalVal
    rw [taCombine_ta]
    unfold taMeasList
    rw [List.map_map, sumList_range_real]
    rfl
  have hne : ((taMeasList d g c).map TaMeas.min) ≠ [] := by
    apply List.ne_nil_of_length_pos
    simp [taMeasList]
    omega
  have hne2 : ((taMeasList d g c).map TaMeas.max) ≠ [] := by
    apply List.ne_nil_of_length_pos
    simp [taMeasList]
    omega
  have hmin : (estimate ts d g c).time_alignment.min = max dblMin m := by
    have h1 : (estimate ts d g c).time_alignment.min =
        (taCombine (taMeasList d g c)).min := rfl
    rw [h1, taCombine_min]
    apply foldl_max_const m _ ?_ hne
    intro x hx
    obtain ⟨tm, htm, rfl⟩ := List.mem_map.mp hx
    obtain ⟨p, hp, rfl⟩ := List.mem_map.mp htm
    exact (hb p (by simpa using hp)).1
  have hmax : (estimate ts d g c).time_alignment.max = min dblMax M := by
    have h1 : (estimate ts d g c).time_alignment.max =
        (taCombine (taMeasList d g c)).max := rfl
    rw [h1, taCombine_max]
    apply foldl_min_const M _ ?_ hne2
    intro x hx
    obtain ⟨tm, htm, rfl⟩ := List.mem_map.mp hx
    obtain ⟨p, hp, rfl⟩ := List.mem_map.mp htm
    exact (hb p (by simpa using hp)).2.1
  have hcast : (0 : ℝ) < (c.resource.nof_antenna_ports : ℝ) := by
    exact_mod_cast hnpos
  have hlow : m ≤ (estimate ts d g c).time_alignment.time_alignment := by
    rw [hta, le_div_iff₀ hcast]
    have := Finset.card_nsmul_le_sum (Finset.range c.resource.nof_antenna_ports)
      (fun p => (taMeasAt d g c p).time_alignment) m
      (fun p hp => (hb p (Finset.mem_range.mp hp)).2.2.1)
    simpa [nsmul_eq_mul, mul_comm] using this
  have hhigh : (estimate ts d g c).time_alignment.time_alignment ≤ M := by
    rw [hta, div_le_iff₀ hcast]
    have := Finset.sum_le_card_nsmul (Finset.range c.resource.nof_antenna_ports)
      (fun p => (taMeasAt d g c p).time_alignment) M
      (fun p hp => (hb p (Finset.mem_range.mp hp)).2.2.2)
    simpa [nsmul_eq_mul, mul_comm] using this
  constructor
  · rw [hmin]
    exact max_le hest hlow
  · rw [hmax]
    exact le_min (le_trans hhigh hM) hhigh

/-- C9 amended witness: a single port with measurement
`{estimate 1, resolution 0, min 0, max 2}`. -/
theorem C9_ta_order_witness :
    ((2 : ℝ) ≤ dblMax) ∧
    ((estimate 1024 (demoDeps taPos) (demoGrid fun _ => 0)
        (demoCfg none [0])).time_alignment.min ≤
      (estimate 1024 (demoDeps taPos) (demoGrid fun _ => 0)
        (demoCfg none [0])).time_alignment.time_alignment ∧
    (estimate 1024 (demoDeps taPos) (demoGrid fun _ => 0)
        (demoCfg none [0])).time_alignment.time_alignment ≤
      (estimate 1024 (demoDeps taPos) (demoGrid fun _ => 0)
        (demoCfg none [0])).time_alignment.max) := by
  refine ⟨two_le_dblMax, ?_⟩
  refine C9_ta_order_amended 1024 (demoDeps taPos) (demoGrid fun _ => 0)
    (demoCfg none [0]) 0 2 (demoValid1 taPos none) ?_ two_le_dblMax ?_
  · intro p hp
    exact ⟨rfl, rfl, (by norm_num : (0 : ℝ) ≤ 1), (by norm_num : (1 : ℝ) ≤ 2)⟩
  · rw [demo_ta_result]
    exact dblMin_le_one

/-- C5 counterexample: the clamp at line 512 reads the RSRP accumulator
*before* the division at line 516.  With two receive ports receiving the
constants 3 and 4 (so the accumulator is 25 and the normalized RSRP 12.5)
and no residual noise, the code's `noise_std` is `sqrt 25 / 100 = 1/20`,
while the claim's formula gives `sqrt 12.5 / 100`. -/
theorem C5_clamp_cx :
    noiseStdVal 1024 (demoDeps taZero) (demoGrid v34)
        (demoCfg (some ctxGood) [0, 1]) ≠
      max (Real.sqrt ((estimate 1024 (demoDeps taZero) (demoGrid v34)
          (demoCfg (some ctxGood) [0, 1])).noise_variance))
        (Real.sqrt (rsrpFinal 1024 (demoDeps taZero) (demoGrid v34)
          (demoCfg (some ctxGood) [0, 1])) * (1 / 100)) := by
  have hrsrp : rsrpAccVal 1024 (demoDeps taZero) (demoGrid v34)
      (demoCfg (some ctxGood) [0, 1]) = 25 := by
    rw [demo_rsrp_noskip 1024 taZero rfl (some ctxGood) [0, 1] v34
      (skip_good [0, 1])]
    rw [show ([0, 1] : List ℕ).length = 2 from rfl, Finset.sum_range_succ,
      Finset.sum_range_one]
    norm_num [v34, Complex.normSq_apply]
  have hnv : noiseVarFinal 1024 (demoDeps taZero) (demoGrid v34)
      (demoCfg (some ctxGood) [0, 1]) = 0 := by
    unfold noiseVarFinal
    rw [demo_noiseTotal_noskip 1024 taZero rfl (some ctxGood) [0, 1] v34
      (skip_good [0, 1])]
    simp
  have hstd : noiseStdVal 1024 (demoDeps taZero) (demoGrid v34)
      (demoCfg (some ctxGood) [0, 1]) = 1 / 20 := by
    unfold noiseStdVal
    rw [hnv, hrsrp, Real.sqrt_zero, show (25 : ℝ) = 5 ^ 2 by norm_num,
      Real.sqrt_sq (by norm_num : (0 : ℝ) ≤ 5),
      max_eq_right (by norm_num : (0 : ℝ) ≤ 5 * (1 / 100))]
    norm_num
  have hfin : rsrpFinal 1024 (demoDeps taZero) (demoGrid v34)
      (demoCfg (some ctxGood) [0, 1]) = 25 / 2 := by
    unfold rsrpFinal
    rw [hrsrp]
    norm_num [demoCfg, demoRes]
  have hev : (estimate 1024 (demoDeps taZero) (demoGrid v34)
      (demoCfg (some ctxGood) [0, 1])).noise_variance = 0 := hnv
  rw [hstd, hev, hfin, Real.sqrt_zero,
    max_eq_right (by positivity : (0 : ℝ) ≤ Real.sqrt (25 / 2) * (1 / 100))]
  intro hcontra
  have h1 : Real.sqrt (25 / 2) = 5 := by linarith
  have h2 := Real.sq_sqrt (show (0 : ℝ) ≤ 25 / 2 by norm_num)
  rw [h1] at h2
  norm_num at h2

/-- C5 amended: the clamp is
`noise_std = max(sqrt(noise_variance), sqrt(rsrp_accumulator) × 0.01)` with
the *raw* (pre-normalization) RSRP accumulator; since the returned RSRP is
the accumulator divided by `num_tx_ports × num_rx_ports ≥ 1`, the claimed
consequence `noise_std ≥ sqrt(returned rsrp) × 0.01` (SNR at most 40 dB)
still holds for every structurally valid request. -/
theorem C5_clamp_amended (ts : ℕ) (d : Deps) (g : Grid) (c : SrsCfg)
    (h : Valid d c) :
    noiseStdVal ts d g c =
      max (Real.sqrt ((estimate ts d g c).noise_variance))
        (Real.sqrt (rsrpAccVal ts d g c) * (1 / 100)) ∧
    Real.sqrt (rsrpFinal ts d g c) * (1 / 100) ≤ noiseStdVal ts d g c := by
  refine ⟨rfl, ?_⟩
  have h0 := rsrpAcc_nonneg ts d g c
  have hk : (1 : ℝ) ≤
      ((c.resource.nof_antenna_ports * c.ports.length : ℕ) : ℝ) := by
    have h1 := valid_ntx_pos d c h
    have h2 := valid_nrx_pos d c h
    have h3 : 1 ≤ c.resource.nof_antenna_ports * c.ports.length :=
      Nat.one_le_iff_ne_zero.mpr (Nat.mul_pos h1 h2).ne'
    exact_mod_cast h3
  have hmono : Real.sqrt (rsrpFinal ts d g c) ≤
      Real.sqrt (rsrpAccVal ts d g c) := by
    apply Real.sqrt_le_sqrt
    unfold rsrpFinal
    exact div_le_self h0 hk
  calc Real.sqrt (rsrpFinal ts d g c) * (1 / 100)
      ≤ Real.sqrt (rsrpAccVal ts d g c) * (1 / 100) :=
        mul_le_mul_of_nonneg_right hmono (by norm_num)
    _ ≤ noiseStdVal ts d g c := le_max_right _ _

/-- C5 amended witness at a concrete valid request. -/
theorem C5_clamp_witness :
    Valid (demoDeps taZero) (demoCfg (some ctxGood) [0, 1]) ∧
    (noiseStdVal 1024 (demoDeps taZero) (demoGrid v34)
        (demoCfg (some ctxGood) [0, 1]) =
      max (Real.sqrt ((estimate 1024 (demoDeps taZero) (demoGrid v34)
          (demoCfg (some ctxGood) [0, 1])).noise_variance))
        (Real.sqrt (rsrpAccVal 1024 (demoDeps taZero) (demoGrid v34)
          (demoCfg (some ctxGood) [0, 1])) * (1 / 100)) ∧
    Real.sqrt (rsrpFinal 1024 (demoDeps taZero) (demoGrid v34)
        (demoCfg (some ctxGood) [0, 1])) * (1 / 100) ≤
      noiseStdVal 1024 (demoDeps taZero) (demoGrid v34)
        (demoCfg (some ctxGood) [0, 1])) :=
  ⟨demoValid2 taZero (some ctxGood),
    C5_clamp_amended 1024 (demoDeps taZero) (demoGrid v34)
      (demoCfg (some ctxGood) [0, 1]) (demoValid2 taZero (some ctxGood))⟩

/-- C6: the returned noise variance is the accumulated squared residual
divided by `(num_symbols × sequence_length − n_estimates) × correction ×
num_rx_ports`, with `n_estimates = 2` and `correction = 2` exactly when
pilots are interleaved (four antenna ports and the port-0 cyclic shift at
least `n_cs_max / 2`, unsigned division), and `n_estimates = num_tx_ports`,
`correction = 1` otherwise. -/
theorem C6_noise_normalization (ts : ℕ) (d : Deps) (g : Grid) (c : SrsCfg)
    (h : Valid d c) :
    (estimate ts d g c).noise_variance =
      noiseAccumTotal ts d g c /
        (((c.resource.nof_symbols * seqLen d c -
              (if c.resource.nof_antenna_ports = 4 ∧
                  (infoAt d c 0).n_cs_max / 2 ≤ (infoAt d c 0).n_cs
                then 2 else c.resource.nof_antenna_ports)) *
            (if c.resource.nof_antenna_ports = 4 ∧
                (infoAt d c 0).n_cs_max / 2 ≤ (infoAt d c 0).n_cs
              then 2 else 1) * c.ports.length : ℕ) : ℝ) := by
  have hb : (interleavedPilots d c = true) ↔
      (c.resource.nof_antenna_ports = 4 ∧
        (infoAt d c 0).n_cs_max / 2 ≤ (infoAt d c 0).n_cs) := by
    unfold interleavedPilots
    rw [Bool.and_eq_true, beq_iff_eq, decide_eq_true_eq]
  have h1 : nofEstimates d c =
      if c.resource.nof_antenna_ports = 4 ∧
          (infoAt d c 0).n_cs_max / 2 ≤ (infoAt d c 0).n_cs
        then 2 else c.resource.nof_antenna_ports := by
    unfold nofEstimates
    by_cases hc : c.resource.nof_antenna_ports = 4 ∧
        (infoAt d c 0).n_cs_max / 2 ≤ (infoAt d c 0).n_cs
    · rw [if_pos (hb.mpr hc), if_pos hc]
    · rw [if_neg (fun hh => hc (hb.mp hh)), if_neg hc]
  have h2 : correctionFactor d c =
      if c.resource.nof_antenna_ports = 4 ∧
          (infoAt d c 0).n_cs_max / 2 ≤ (infoAt d c 0).n_cs
        then 2 else 1 := by
    unfold correctionFactor
    by_cases hc : c.resource.nof_antenna_ports = 4 ∧
        (infoAt d c 0).n_cs_max / 2 ≤ (infoAt d c 0).n_cs
    · rw [if_pos (hb.mpr hc), if_pos hc]
    · rw [if_neg (fun hh => hc (hb.mp hh)), if_neg hc]
  show noiseVarFinal ts d g c = _
  unfold noiseVarFinal
  rw [valid_divisor_eq d c h, h1, h2]

/-- C6 witness at a concrete valid request (not interleaved: one port). -/
theorem C6_noise_normalization_witness :
    Valid (demoDeps taZero) (demoCfg none [0]) ∧
    (estimate 1024 (demoDeps taZero) (demoGrid v34)
        (demoCfg none [0])).noise_variance =
      noiseAccumTotal 1024 (demoDeps taZero) (demoGrid v34)
          (demoCfg none [0]) /
        ((((demoCfg none [0]).resource.nof_symbols *
              seqLen (demoDeps taZero) (demoCfg none [0]) -
              (if (demoCfg none [0]).resource.nof_antenna_ports = 4 ∧
                  (infoAt (demoDeps taZero) (demoCfg none [0]) 0).n_cs_max / 2 ≤
                    (infoAt (demoDeps taZero) (demoCfg none [0]) 0).n_cs
                then 2 else (demoCfg none [0]).resource.nof_antenna_ports)) *
            (if (demoCfg none [0]).resource.nof_antenna_ports = 4 ∧
                (infoAt (demoDeps taZero) (demoCfg none [0]) 0).n_cs_max / 2 ≤
                  (infoAt (demoDeps taZero) (demoCfg none [0]) 0).n_cs
              then 2 else 1) * (demoCfg none [0]).ports.length : ℕ) : ℝ) :=
  ⟨demoValid1 taZero none,
    C6_noise_normalization 1024 (demoDeps taZero) (demoGrid v34)
      (demoCfg none [0]) (demoValid1 taZero none)⟩

/-- C7: for every valid request and `(rx, tx)` pair, the least-squares
buffer holds, at each subcarrier `k`, the sum of the comb-sampled received
values over the configured symbols (first symbol copied, later symbols
added), multiplied by the conjugate of the port's pilot sample, and scaled
by `1 / num_symbols` exactly when more than one symbol is configured. -/
theorem C7_lse_construction (d : Deps) (g : Grid) (c : SrsCfg) (h : Valid d c)
    (r p : ℕ) (hp : p < c.resource.nof_antenna_ports) :
    (lseRaw d g c r p).length = seqLen d c ∧
    ∀ k < seqLen d c,
      (lseRaw d g c r p).getD k 0 =
        (∑ s ∈ Finset.range c.resource.nof_symbols,
            g (rxPortAt c r) (c.resource.start_symbol + s)
              ((infoAt d c p).mapping_initial_subcarrier +
                k * (infoAt d c p).comb_size)) *
          (starRingEnd ℂ) (d.seqGen (infoAt d c p).sequence_group
            (infoAt d c p).sequence_number (infoAt d c p).n_cs
            (infoAt d c p).n_cs_max k) *
          (if 1 < c.resource.nof_symbols then
            ((c.resource.nof_symbols : ℂ))⁻¹ else 1) := by
  have hlp : (infoAt d c p).sequence_length = seqLen d c := h.seq_common p hp
  have hraw_len :
      (rawAccum g (infoAt d c p) c.resource (rxPortAt c r)).length =
        seqLen d c := by
    rw [rawAccum_length, hlp]
  have hpil_len : (pilotSeq d c p).length = seqLen d c := by
    simp [pilotSeq]
  have hzip_len : (List.zipWith (fun a b => a * (starRingEnd ℂ) b)
      (rawAccum g (infoAt d c p) c.resource (rxPortAt c r))
      (pilotSeq d c p)).length = seqLen d c := by
    rw [List.length_zipWith, hraw_len, hpil_len, min_self]
  constructor
  · unfold lseRaw
    dsimp only
    by_cases hs : 1 < c.resource.nof_symbols
    · rw [if_pos hs, List.length_map, hzip_len]
    · rw [if_neg hs, hzip_len]
  · intro k hk
    have hzip : (List.zipWith (fun a b => a * (starRingEnd ℂ) b)
        (rawAccum g (infoAt d c p) c.resource (rxPortAt c r))
        (pilotSeq d c p)).getD k 0 =
        (∑ s ∈ Finset.range c.resource.nof_symbols,
            g (rxPortAt c r) (c.resource.start_symbol + s)
              ((infoAt d c p).mapping_initial_subcarrier +
                k * (infoAt d c p).comb_size)) *
          (starRingEnd ℂ) (d.seqGen (infoAt d c p).sequence_group
            (infoAt d c p).sequence_number (infoAt d c p).n_cs
            (infoAt d c p).n_cs_max k) := by
      rw [zipWith_getD _ _ _ k (by rw [hraw_len]; exact hk)
        (by rw [hpil_len]; exact hk)]
      rw [rawAccum_getD g _ c.resource _ k (by rw [hlp]; exact hk)]
      unfold pilotSeq
      rw [range_map_getD _ _ _ _ hk]
    unfold lseRaw
    dsimp only
    by_cases hs : 1 < c.resource.nof_symbols
    · rw [if_pos hs, if_pos hs, map_getD _ _ k (by rw [hzip_len]; exact hk),
        hzip]
      ring
    · rw [if_neg hs, if_neg hs, hzip, mul_one]

/-- C7 witness at a concrete valid request (one symbol, unit pilot). -/
theorem C7_lse_construction_witness :
    Valid (demoDeps taZero) (demoCfg none [0]) ∧
    (0 < (demoCfg none [0]).resource.nof_antenna_ports) ∧
    ((lseRaw (demoDeps taZero) (demoGrid v34) (demoCfg none [0]) 0 0).length =
      seqLen (demoDeps taZero) (demoCfg none [0]) ∧
    ∀ k < seqLen (demoDeps taZero) (demoCfg none [0]),
      (lseRaw (demoDeps taZero) (demoGrid v34)
          (demoCfg none [0]) 0 0).getD k 0 =
        (∑ s ∈ Finset.range (demoCfg none [0]).resource.nof_symbols,
            demoGrid v34 (rxPortAt (demoCfg none [0]) 0)
              ((demoCfg none [0]).resource.start_symbol + s)
              ((infoAt (demoDeps taZero) (demoCfg none [0])
                  0).mapping_initial_subcarrier +
                k * (infoAt (demoDeps taZero) (demoCfg none [0]) 0).comb_size)) *
          (starRingEnd ℂ) ((demoDeps taZero).seqGen
            (infoAt (demoDeps taZero) (demoCfg none [0]) 0).sequence_group
            (infoAt (demoDeps taZero) (demoCfg none [0]) 0).sequence_number
            (infoAt (demoDeps taZero) (demoCfg none [0]) 0).n_cs
            (infoAt (demoDeps taZero) (demoCfg none [0]) 0).n_cs_max k) *
          (if 1 < (demoCfg none [0]).resource.nof_symbols then
            (((demoCfg none [0]).resource.nof_symbols : ℂ))⁻¹ else 1)) :=
  ⟨demoValid1 taZero none, Nat.one_pos,
    C7_lse_construction (demoDeps taZero) (demoGrid v34) (demoCfg none [0])
      (demoValid1 taZero none) 0 0 Nat.one_pos⟩

/-- C8: the phase-shift compensator preserves the buffer length and
multiplies element `n` by the table-quantized complex exponential whose
index is `round(table_size × (n × phase_per_subcarrier + phase_offset) /
2π) mod table_size` (rounding half away from zero, as `std::round`). -/
theorem C8_phase_quantization (ts : ℕ) (x : List ℂ) (psc off : ℝ) (n : ℕ)
    (hn : n < x.length) :
    (compensatePhaseShift ts x psc off).length = x.length ∧
    (compensatePhaseShift ts x psc off).getD n 0 =
      x.getD n 0 *
        Complex.exp (2 * Real.pi * Complex.I *
          ((((roundAway ((ts : ℝ) * ((n : ℝ) * psc + off) / (2 * Real.pi))) %
              (ts : ℤ) : ℤ) : ℂ) / (ts : ℂ))) := by
  refine ⟨compensate_length ts x psc off, ?_⟩
  rw [compensate_getD ts x psc off n hn]
  rfl

/-- C8 witness: a singleton buffer with zero phases is left unchanged. -/
theorem C8_phase_quantization_witness :
    (0 : ℕ) < ([(1 : ℂ)]).length ∧
    (compensatePhaseShift 16 [(1 : ℂ)] 0 0).getD 0 0 = 1 := by
  refine ⟨by norm_num, ?_⟩
  have h := (C8_phase_quantization 16 [(1 : ℂ)] 0 0 0 (by norm_num)).2
  rw [h]
  have harg : ((16 : ℕ) : ℝ) * (((0 : ℕ) : ℝ) * 0 + 0) / (2 * Real.pi) = 0 := by
    norm_num
  rw [harg, roundAway_zero]
  simp

/-- C10: for every structurally valid request the unsigned subtraction
`num_symbols × sequence_length − n_estimates` does not wrap around and the
noise-variance divisor is strictly positive. -/
theorem C10_divisor_safety (d : Deps) (c : SrsCfg) (h : Valid d c) :
    nofEstimates d c < c.resource.nof_symbols * seqLen d c ∧
    usub32 (c.resource.nof_symbols * seqLen d c) (nofEstimates d c) =
      c.resource.nof_symbols * seqLen d c - nofEstimates d c ∧
    0 < noiseDivisor d c := by
  refine ⟨?_, valid_sub_no_wrap d c h, valid_divisor_pos d c h⟩
  have h1 := h.seq_min
  have h3 := valid_nsym_pos d c h
  have h5 := nofEstimates_le_four d c h
  have h6 : 12 ≤ c.resource.nof_symbols * seqLen d c :=
    le_trans (by omega) (Nat.mul_le_mul h3 h1)
  omega

/-- C10 witness at a concrete valid request. -/
theorem C10_divisor_safety_witness :
    Valid (demoDeps taZero) (demoCfg none [0]) ∧
    (nofEstimates (demoDeps taZero) (demoCfg none [0]) <
      (demoCfg none [0]).resource.nof_symbols *
        seqLen (demoDeps taZero) (demoCfg none [0]) ∧
    usub32 ((demoCfg none [0]).resource.nof_symbols *
        seqLen (demoDeps taZero) (demoCfg none [0]))
        (nofEstimates (demoDeps taZero) (demoCfg none [0])) =
      (demoCfg none [0]).resource.nof_symbols *
        seqLen (demoDeps taZero) (demoCfg none [0]) -
        nofEstimates (demoDeps taZero) (demoCfg none [0]) ∧
    0 < noiseDivisor (demoDeps taZero) (demoCfg none [0])) :=
  ⟨demoValid1 taZero none,
    C10_divisor_safety (demoDeps taZero) (demoCfg none [0])
      (demoValid1 taZero none)⟩
